import Mathlib

/-!
# Verification of the Rosa toolchain core

A shallow embedding, in Lean 4, of the parts of the Rosa repository that the
frozen claims C1..C10 are about:

* the dyn-int codec (`src/rosa/src/lib.rs`, `DynamicInt`),
* the bytecode virtual machine (`src/rosa/src/lib.rs`, `src/rosa/src/inst.rs`,
  `src/rosa/src/arith_macro.rs`),
* the Pratt expression parser and its precedence table
  (`src/internals/rosac_parser/src/expr.rs`, `precedence.rs`),
* the lexer (`src/internals/rosac_lexer/src/lib.rs`, `literals.rs`),
* the diagnostic caret-data builder (`src/internals/rosa_errors/src/lib.rs`,
  `src/compiler/rosa_comm/src/lib.rs`).

Modelling conventions: Rust machine integers become `Nat` with explicit
`% 2 ^ w` at the points where Rust truncates; Rust panics (`unwrap`, index out
of bounds, arithmetic overflow in debug mode) become `none`; Rust `while` /
`for` loops become structural recursion on an explicit iteration counter
(`fuel`); `Vec<u8>` buffers that are indexed become `List Nat`, the VM stack
(written through slices at arbitrary `sp`) becomes a function `Nat → Nat`
together with its length.
-/

/-! ## Dyn-int codec (`src/rosa/src/lib.rs`) -/

/-- One iteration bound for the `while mask & byte != 0` loop of
`ones_before_zero`: `mask` starts at `1 << 7` and is halved each iteration,
so 8 iterations always suffice (after 8 halvings `mask = 0` and the condition
is false).  `fuel` counts the remaining iterations. -/
def ones_before_zero_aux (byte : Nat) : Nat → Nat → Nat → Nat
  | 0, _, ones => ones
  | fuel + 1, mask, ones =>
    if mask &&& byte ≠ 0 then ones_before_zero_aux byte fuel (mask >>> 1) (ones + 1)
    else ones

/-- `ones_before_zero`: count the ones starting from the most significant bit
of a byte, until a zero is reached. -/
def ones_before_zero (byte : Nat) : Nat :=
  ones_before_zero_aux byte 8 (1 <<< 7) 0

/-- `bits_dyn_int`: payload-bit count of a dyn-int whose first byte has `ones`
leading ones: `(8 - ones - 1) + 8 * ones`. -/
def bits_dyn_int (ones : Nat) : Nat :=
  (8 - ones - 1) + 8 * ones

/-- `size_dyn_int`: the largest value encodable with `ones` leading ones. -/
def size_dyn_int (ones : Nat) : Nat :=
  2 ^ (bits_dyn_int ones) - 1

/-- The loop of `ones_needed`.  Rust checks `range.contains(&number)` first,
then panics when `ones > 7`, else increments `ones` and moves the range lower
bound to the previous range's end.  The panic is modelled as `none`.  The
iteration counter 9 used by `ones_needed` is exact: `ones` only grows 0,1,…,8
and the loop stops at `ones = 8` at the latest. -/
def ones_needed_aux (number : Nat) : Nat → Nat → Nat → Option Nat
  | 0, _, _ => none
  | fuel + 1, lo, ones =>
    -- At `ones = 8` the `contains` test evaluates `size_dyn_int(8)` and the u8
    -- subtraction `8 - ones - 1` inside `bits_dyn_int` panics — before either
    -- the `contains` test or the `ones > 7` panic can decide.
    if ones = 8 then none
    else if lo ≤ number ∧ number ≤ size_dyn_int ones then some ones
    else if 7 < ones then none
    else ones_needed_aux number fuel (size_dyn_int ones) (ones + 1)

/-- `ones_needed`: smallest leading-ones count whose range contains `number`;
panics (`none`) when the number does not fit a dyn-int. -/
def ones_needed (number : Nat) : Option Nat :=
  ones_needed_aux number 9 0 0

/-- `u64::to_be_bytes`: the eight big-endian bytes of a 64-bit number. -/
def to_be_bytes (n : Nat) : List Nat :=
  [(n >>> 56) % 256, (n >>> 48) % 256, (n >>> 40) % 256, (n >>> 32) % 256,
   (n >>> 24) % 256, (n >>> 16) % 256, (n >>> 8) % 256, n % 256]

namespace DynamicInt

/-- `DynamicInt::encode`.  The `as u8` cast of the first-byte payload is
`% 256`; the `u8` shift of the ones prefix stays below 256, mirrored by
`% 256`.  The `ones_needed` panic propagates as `none`. -/
def encode (number : Nat) : Option (List Nat) :=
  match ones_needed number with
  | none => none
  | some ones =>
    let encoded_ones₀ := 2 ^ ones - 1
    let encoded_ones :=
      if ones ≠ 0 then (encoded_ones₀ <<< (8 - ones)) % 256 else encoded_ones₀
    let bits_to_encode := bits_dyn_int ones
    let first := encoded_ones ||| ((number >>> (bits_to_encode - bits_to_encode % 8)) % 256)
    if ones = 0 then some [first]
    else some (first :: (to_be_bytes number).drop (8 - ones))

/-- The `for offset in 1..=ones` loop of `DynamicInt::decode`.  `left` counts
the remaining iterations (`ones + 1 - offset`); `rev = (ones - offset).abs`
equals the `Nat` subtraction because `offset ≤ ones` inside the loop.  The
`buf[offset]` index panic is modelled by `none`; the `u64` accumulator is
truncated with `% 2 ^ 64` exactly where Rust's `<<` would drop high bits. -/
def decode_loop (buf : List Nat) (ones : Nat) : Nat → Nat → Nat → Option Nat
  | 0, _, result => some result
  | left + 1, offset, result =>
    match buf.get? offset with
    | none => none
    | some b =>
      decode_loop buf ones left (offset + 1)
        (result ||| ((b <<< (8 * (ones - offset))) % 2 ^ 64))

/-- `DynamicInt::decode`.  An empty buffer gives `None` (the `buf.first()?`);
a first byte of eight ones makes `2_u8.pow(ones)` overflow `u8`, a panic
modelled as `none`. -/
def decode (buf : List Nat) : Option Nat :=
  match buf.get? 0 with
  | none => none
  | some first =>
    let ones := ones_before_zero first
    if ones = 0 then some first
    else if ones = 8 then none
    else
      let mask := ((2 ^ ones - 1) <<< (8 - ones)) % 256
      let first_part := first ^^^ mask
      let pos := ones * 8
      let result := 0 ||| ((first_part <<< pos) % 2 ^ 64)
      decode_loop buf ones ones 1 result

end DynamicInt

/-! ## Virtual machine (`src/rosa/src/lib.rs`, `inst.rs`, `arith_macro.rs`) -/

/-- A chunk of Rosa bytecode. -/
structure Chunk where
  data : List Nat
deriving DecidableEq

/-- `Chunk::get`. -/
def Chunk.get (c : Chunk) (i : Nat) : Option Nat :=
  c.data.get? i

/-- The VM's runtime errors. -/
inductive RuntimeError where
  | OverFlow
  | UnderFlow
  | UnknownInst (inst : Nat)
  | ProgramOverFlow
  | DynInt
  | UnknownConst (offset : Nat)
  | ArithmeticError (msg : String)
deriving DecidableEq

/-- The constant pool: `layout` is the `HashMap<usize, usize>` from starting
byte offset to length, modelled as an association list; `data` is the buffer. -/
structure ConstantPool where
  layout : List (Nat × Nat)
  data : List Nat

/-- `ConstantPool::get`: `self.data.get(offset..offset + self.layout.get(&offset)?)`.
A slice `get(a..b)` is `Some` exactly when `b ≤ len` (here `a ≤ b` always). -/
def ConstantPool.get (pool : ConstantPool) (offset : Nat) : Option (List Nat) :=
  match pool.layout.lookup offset with
  | none => none
  | some len =>
    if offset + len ≤ pool.data.length then
      some ((pool.data.drop offset).take len)
    else none

/-- The VM state.  The byte stack `Vec<u8>` is modelled as the pair of a
content function `stack` (index to byte; a fresh `vec![0; n]` is the constant
0 function) and its length `stack_len`. -/
structure VirtualMachine where
  program : Chunk
  ip : Nat
  stack : Nat → Nat
  stack_len : Nat
  sp : Nat
  exit : Option Nat
  pool : ConstantPool

namespace VirtualMachine

/-- `VirtualMachine::DEFAULT_STACK_SIZE = 2usize.pow(16)`. -/
def DEFAULT_STACK_SIZE : Nat := 2 ^ 16

/-- `VirtualMachine::with_stack_size`. -/
def with_stack_size (program : Chunk) (stack_size : Nat) (pool : ConstantPool) :
    VirtualMachine :=
  { program := program, ip := 0, stack := fun _ => 0, stack_len := stack_size,
    sp := 0, exit := none, pool := pool }

/-- `VirtualMachine::new`. -/
def new (program : Chunk) (pool : ConstantPool) : VirtualMachine :=
  with_stack_size program DEFAULT_STACK_SIZE pool

/-- `VirtualMachine::read_byte`: read the byte at `ip` and advance `ip`. -/
def read_byte (vm : VirtualMachine) : Except RuntimeError (Nat × VirtualMachine) :=
  match vm.program.get vm.ip with
  | none => .error .ProgramOverFlow
  | some byte => .ok (byte, { vm with ip := vm.ip + 1 })

/-- `VirtualMachine::extend_stack`: `self.stack.extend(vec![0; amount])`.
The content function already maps the new indices to 0. -/
def extend_stack (vm : VirtualMachine) (amount : Nat) : VirtualMachine :=
  { vm with stack_len := vm.stack_len + amount }

/-- `VirtualMachine::stack_push_raw`.  When the buffer is too small it is
extended by `sp` (the doubling policy); then the bytes are copied at
`sp..sp+size` and `sp` advances.  (The slice write out of a still-too-short
buffer would panic in Rust; with the `2^16`-byte default stack none of the
executions considered here reaches that case.) -/
def stack_push_raw (vm : VirtualMachine) (data : List Nat) : VirtualMachine :=
  let size := data.length
  let vm₁ := if vm.stack_len < vm.sp + size then vm.extend_stack vm.sp else vm
  { vm₁ with
    stack := fun i =>
      if vm₁.sp ≤ i ∧ i < vm₁.sp + size then data.getD (i - vm₁.sp) 0
      else vm₁.stack i,
    sp := vm₁.sp + size }

/-- `VirtualMachine::stack_pop_raw`: `sp.checked_sub(amount)` underflow and an
out-of-range `stack.get(sp - amount..sp)` both give `UnderFlow`; otherwise the
popped slice is returned and `sp` decreases. -/
def stack_pop_raw (vm : VirtualMachine) (amount : Nat) :
    Except RuntimeError (List Nat × VirtualMachine) :=
  if vm.sp < amount then .error .UnderFlow
  else if vm.stack_len < vm.sp then .error .UnderFlow
  else
    .ok ((List.range amount).map (fun i => vm.stack (vm.sp - amount + i)),
      { vm with sp := vm.sp - amount })

/-- `VirtualMachine::stack_pop_one`: pop one byte (`first().unwrap()` cannot
fail on the 1-byte slice; the default 0 is unreachable). -/
def stack_pop_one (vm : VirtualMachine) : Except RuntimeError (Nat × VirtualMachine) :=
  match vm.stack_pop_raw 1 with
  | .error e => .error e
  | .ok (bytes, vm₁) => .ok (bytes.headD 0, vm₁)

/-- `VirtualMachine::stack_pop::<u8>`: pop `size_of::<u8>() = 1` byte;
`u8::from_be_bytes` of the 1-byte slice is that byte (the `try_into().unwrap()`
cannot fail since `stack_pop_raw` returns exactly 1 byte). -/
def stack_pop_u8 (vm : VirtualMachine) : Except RuntimeError (Nat × VirtualMachine) :=
  match vm.stack_pop_raw 1 with
  | .error e => .error e
  | .ok (bytes, vm₁) => .ok (bytes.headD 0, vm₁)

/-- `VirtualMachine::stack_push::<u8>`: `to_be_bytes` of a `u8` value is the
single byte itself. -/
def stack_push_u8 (vm : VirtualMachine) (v : Nat) : VirtualMachine :=
  vm.stack_push_raw [v]

/-- `VirtualMachine::stack_push::<bool>`: `Into::<u8>::into(self).to_be_bytes()`. -/
def stack_push_bool (vm : VirtualMachine) (b : Bool) : VirtualMachine :=
  vm.stack_push_raw [if b then 1 else 0]

/-- `VirtualMachine::finished`: sets `exit = Some(0)` when `ip` has reached the
end of the chunk; returns whether it has. -/
def finished (vm : VirtualMachine) : Bool × VirtualMachine :=
  if vm.program.data.length ≤ vm.ip then (true, { vm with exit := some 0 })
  else (false, vm)

/-- `VirtualMachine::read_dyn_int`: read the first byte, slice
`program.data[ip - 1 .. ip + size]` (out of bounds is `ProgramOverFlow`),
decode it, advance `ip`, and map a decode failure to `DynInt`. -/
def read_dyn_int (vm : VirtualMachine) : Except RuntimeError (Nat × VirtualMachine) :=
  match vm.read_byte with
  | .error e => .error e
  | .ok (first, vm₁) =>
    let size := ones_before_zero first
    let slice :=
      if vm₁.ip + size ≤ vm₁.program.data.length then
        some ((vm₁.program.data.drop (vm₁.ip - 1)).take (size + 1))
      else none
    match slice with
    | none => .error .ProgramOverFlow
    | some bytes =>
      let number := DynamicInt.decode bytes
      let vm₂ := { vm₁ with ip := vm₁.ip + size }
      match number with
      | some num => .ok (num, vm₂)
      | none => .error .DynInt

end VirtualMachine

/-! ### Instruction set (`src/rosa/src/inst.rs`, `arith_macro.rs`)

Each instruction's `execute` becomes a function
`VirtualMachine → Except RuntimeError VirtualMachine`.  The `arith_inst!`
macro's two shapes become `arith_err_execute` (checked arithmetic, popping
`b` then `a` and pushing `a op b` or failing with `ArithmeticError`) and
`comp_execute` (comparisons pushing a `bool`).  Note that in `inst.rs` BOTH
`arith_impl!` blocks — the `U8*` instructions (opcodes 3..15) AND the `U16*`
instructions (opcodes 16..28) — are instantiated with `RustType = u8`, so all
of them pop and push single bytes. -/

/-- `u8::checked_mul`. -/
def checked_mul_u8 (a b : Nat) : Option Nat :=
  if a * b ≤ 255 then some (a * b) else none

/-- `u8::checked_div`. -/
def checked_div_u8 (a b : Nat) : Option Nat :=
  if b = 0 then none else some (a / b)

/-- `u8::checked_rem`. -/
def checked_rem_u8 (a b : Nat) : Option Nat :=
  if b = 0 then none else some (a % b)

/-- `u8::checked_add`. -/
def checked_add_u8 (a b : Nat) : Option Nat :=
  if a + b ≤ 255 then some (a + b) else none

/-- `u8::checked_sub`. -/
def checked_sub_u8 (a b : Nat) : Option Nat :=
  if b ≤ a then some (a - b) else none

/-- `u8::checked_shr`: fails only when the shift amount is ≥ 8. -/
def checked_shr_u8 (a b : Nat) : Option Nat :=
  if b < 8 then some (a >>> b) else none

/-- `u8::checked_shl`: fails only when the shift amount is ≥ 8; the shifted
value is truncated to a byte. -/
def checked_shl_u8 (a b : Nat) : Option Nat :=
  if b < 8 then some ((a <<< b) % 256) else none

/-- The `@aritherr` shape of `arith_inst!` at `RustType = u8`:
`let b = vm.stack_pop()?; let a = vm.stack_pop()?;` then the checked op,
`ArithmeticError` on `None`, push on `Some`. -/
def arith_err_execute (op : Nat → Nat → Option Nat) (msg : String)
    (vm : VirtualMachine) : Except RuntimeError VirtualMachine :=
  match vm.stack_pop_u8 with
  | .error e => .error e
  | .ok (b, vm₁) =>
    match vm₁.stack_pop_u8 with
    | .error e => .error e
    | .ok (a, vm₂) =>
      match op a b with
      | none => .error (.ArithmeticError msg)
      | some res => .ok (vm₂.stack_push_u8 res)

/-- The comparison shape of `arith_inst!` at `RustType = u8`: pop `b` then
`a`, push the boolean `a op b`. -/
def comp_execute (op : Nat → Nat → Bool) (vm : VirtualMachine) :
    Except RuntimeError VirtualMachine :=
  match vm.stack_pop_u8 with
  | .error e => .error e
  | .ok (b, vm₁) =>
    match vm₁.stack_pop_u8 with
    | .error e => .error e
    | .ok (a, vm₂) => .ok (vm₂.stack_push_bool (op a b))

/-- `NoOpInst::execute`. -/
def no_op_execute (vm : VirtualMachine) : Except RuntimeError VirtualMachine :=
  .ok vm

/-- `ExitInst::execute`: pop one byte, set `exit`. -/
def exit_execute (vm : VirtualMachine) : Except RuntimeError VirtualMachine :=
  match vm.stack_pop_u8 with
  | .error e => .error e
  | .ok (code, vm₁) => .ok { vm₁ with exit := some code }

/-- `ConstInst::execute`: read a dyn-int offset, look it up in the pool
(`UnknownConst` on a miss) and push the constant's bytes. -/
def const_execute (vm : VirtualMachine) : Except RuntimeError VirtualMachine :=
  match vm.read_dyn_int with
  | .error e => .error e
  | .ok (offset, vm₁) =>
    match vm₁.pool.get offset with
    | none => .error (.UnknownConst offset)
    | some data => .ok (vm₁.stack_push_raw data)

/-- `INSTRUCTION_SET` (the `inst_set!` HashMap), as an opcode-indexed
association list.  Opcodes 16..28 are the `U16*` instructions, which the
source instantiates with `RustType = u8` just like opcodes 3..15. -/
def instruction_list : List (Nat × (VirtualMachine → Except RuntimeError VirtualMachine)) :=
  [(0, no_op_execute),
   (1, exit_execute),
   (2, const_execute),
   -- u8
   (3, arith_err_execute checked_mul_u8 "multiplication overflow"),
   (4, arith_err_execute checked_div_u8 "division by zero"),
   (5, arith_err_execute checked_rem_u8 "remainder by zero"),
   (6, arith_err_execute checked_add_u8 "addition with overflow"),
   (7, arith_err_execute checked_sub_u8 "substraction with overflow"),
   (8, arith_err_execute checked_shr_u8 "right shift with overflow"),
   (9, arith_err_execute checked_shl_u8 "left shift with overflow"),
   (10, comp_execute (fun a b => a < b)),
   (11, comp_execute (fun a b => b < a)),
   (12, comp_execute (fun a b => a ≤ b)),
   (13, comp_execute (fun a b => b ≤ a)),
   (14, comp_execute (fun a b => a == b)),
   (15, comp_execute (fun a b => a != b)),
   -- u16 (instantiated with RustType = u8 in the source)
   (16, arith_err_execute checked_mul_u8 "multiplication overflow"),
   (17, arith_err_execute checked_div_u8 "division by zero"),
   (18, arith_err_execute checked_rem_u8 "remainder by zero"),
   (19, arith_err_execute checked_add_u8 "addition with overflow"),
   (20, arith_err_execute checked_sub_u8 "substraction with overflow"),
   (21, arith_err_execute checked_shr_u8 "right shift with overflow"),
   (22, arith_err_execute checked_shl_u8 "left shift with overflow"),
   (23, comp_execute (fun a b => a < b)),
   (24, comp_execute (fun a b => b < a)),
   (25, comp_execute (fun a b => a ≤ b)),
   (26, comp_execute (fun a b => b ≤ a)),
   (27, comp_execute (fun a b => a == b)),
   (28, comp_execute (fun a b => a != b))]

/-- `INSTRUCTION_SET.get(&inst)`. -/
def instruction_set (opcode : Nat) :
    Option (VirtualMachine → Except RuntimeError VirtualMachine) :=
  instruction_list.lookup opcode

/-- The `while self.exit.is_none() && !self.finished()` loop of
`VirtualMachine::run`, with an iteration counter; `none` means the counter ran
out before the loop finished.  `&&` short-circuits, so `finished` (and its
side effect on `exit`) only runs when `exit` is still `None`. -/
def run_loop : Nat → VirtualMachine → Option (Except RuntimeError VirtualMachine)
  | 0, _ => none
  | fuel + 1, vm =>
    if vm.exit.isSome then some (.ok vm)
    else
      match vm.finished with
      | (true, vm₁) => some (.ok vm₁)
      | (false, vm₁) =>
        match vm₁.read_byte with
        | .error e => some (.error e)
        | .ok (inst, vm₂) =>
          match instruction_set inst with
          | none => some (.error (.UnknownInst inst))
          | some exec =>
            match exec vm₂ with
            | .error e => some (.error e)
            | .ok vm₃ => run_loop fuel vm₃

/-- `VirtualMachine::run`: the fetch loop followed by `Ok(self.exit.unwrap())`.
The `unwrap` panic (loop over with `exit` still `None`) is modelled as `none`,
like an exhausted iteration counter. -/
def run (fuel : Nat) (vm : VirtualMachine) : Option (Except RuntimeError Nat) :=
  match run_loop fuel vm with
  | none => none
  | some (.error e) => some (.error e)
  | some (.ok vmE) =>
    match vmE.exit with
    | some code => some (.ok code)
    | none => none

/-! ## Source positions (`src/compiler/rosa_comm/src/lib.rs`)

`BytePos` is a `u32` byte offset; spans are half-open pairs.  The helpers
`Span::new`, `Span::from_ends` and `Span::offset` are used by the `internals`
crates but their defining `rosa_comm` revision is not among the source files;
they are modelled from the spec. -/

/-- `Span` — half-open `[lo, hi)` pair of byte positions. -/
structure Span where
  lo : Nat
  hi : Nat
deriving DecidableEq

/-- Modelled from the spec: `Span::new(lo, hi)` — the constructor used by the
lexer; its defining `rosa_comm` revision is absent from the source tree. -/
def Span.new (lo hi : Nat) : Span :=
  ⟨lo, hi⟩

/-- Modelled from the spec: `Span::from_ends(a, b)` — absent from the source
tree; per §4.5 the combined span runs "from lhs.lo to rhs.hi". -/
def Span.from_ends (a b : Span) : Span :=
  ⟨a.lo, b.hi⟩

/-- Modelled from the spec: `Span::offset(base)` — absent from the source
tree; shifts a relative span by a base position (used only for the spans of
integer-literal errors). -/
def Span.offset (s : Span) (base : Nat) : Span :=
  ⟨s.lo + base, s.hi + base⟩

/-! ## Tokens (`src/internals/rosac_lexer/src/tokens.rs`) -/

/-- The keyword set. -/
inductive Keyword where
  | Fun | Return | Val | Var | Type | True | False | If | Else
deriving DecidableEq

/-- `Keyword::from_str`. -/
def Keyword.from_str (s : String) : Option Keyword :=
  if s = "fun" then some .Fun
  else if s = "return" then some .Return
  else if s = "val" then some .Val
  else if s = "var" then some .Var
  else if s = "type" then some .Type
  else if s = "true" then some .True
  else if s = "false" then some .False
  else if s = "if" then some .If
  else if s = "else" then some .Else
  else none

/-- The punctuation set.  (The source maps `'('` to `RParen` and `')'` to
`LParen`, and likewise for the other delimiters — kept as is.) -/
inductive Punctuation where
  | RParen | LParen | RBracket | LBracket | RBrace | LBrace
  | Colon | Semi | Comma | At
  | Asterisk | Caret | Dot | Equal | Equal2
  | Exclamationmark | ExclamationmarkEqual
  | LArrow | LArrow2 | LArrowEqual
  | Minus | Percent | Plus
  | RArrow | RArrow2 | RArrowEqual
  | Slash
deriving DecidableEq

/-- `Punctuation::size`: the byte width of the punctuation. -/
def Punctuation.size : Punctuation → Nat
  | .Equal2 | .ExclamationmarkEqual | .LArrow2 | .LArrowEqual
  | .RArrow2 | .RArrowEqual => 2
  | _ => 1

/-- `TokenType`. -/
inductive TokenType where
  | KW (k : Keyword)
  | Punct (p : Punctuation)
  | Int (i : Nat)
  | Str (s : String)
  | Char (c : Char)
  | Ident (s : String)
  | NewLine
  | EOF
deriving DecidableEq

/-- `Token`. -/
structure Token where
  tt : TokenType
  loc : Span
deriving DecidableEq

/-- A diagnostic.  Only the primary span is modelled; the message text plays
no role in any claim and is omitted. -/
structure Diag where
  span : Span
deriving DecidableEq

set_option linter.dupNamespace false in
/-- `RosaRes` / `Fuzzy` — the tri-state result of the front end. -/
inductive Fuzzy (α : Type) (ε : Type) where
  | Ok (v : α)
  | Fuzzy (v : α) (errs : List ε)
  | Err (e : ε)
deriving DecidableEq

/-! ## Operators and precedence (`src/internals/rosac_parser/src/expr.rs`,
`precedence.rs`) -/

/-- `BinaryOp`. -/
inductive BinaryOp where
  | Mul | Div | Rem | Add | Sub | RShift | LShift
  | CompLT | CompGT | CompLTE | CompGTE | CompEq | CompNe
deriving DecidableEq

/-- `BinaryOp::from_punct`. -/
def BinaryOp.from_punct : Punctuation → Option BinaryOp
  | .Asterisk => some .Mul
  | .Slash => some .Div
  | .Percent => some .Rem
  | .Plus => some .Add
  | .Minus => some .Sub
  | .RArrow2 => some .RShift
  | .LArrow2 => some .LShift
  | .LArrow => some .CompLT
  | .RArrow => some .CompGT
  | .LArrowEqual => some .CompLTE
  | .RArrowEqual => some .CompGTE
  | .Equal2 => some .CompEq
  | .ExclamationmarkEqual => some .CompNe
  | _ => none

/-- `UnaryOp`. -/
inductive UnaryOp where
  | Negation | Not
deriving DecidableEq

/-- `UnaryOp::from_punct`. -/
def UnaryOp.from_punct : Punctuation → Option UnaryOp
  | .Minus => some .Negation
  | .Exclamationmark => some .Not
  | _ => none

/-- `UnaryOp::is_left`. -/
def UnaryOp.is_left : UnaryOp → Bool
  | .Negation | .Not => true

/-- `Operator`. -/
inductive Operator where
  | Binary (op : BinaryOp)
  | Unary (op : UnaryOp)
deriving DecidableEq

/-- `Associativity`. -/
inductive Associativity where
  | LeftToRight
  | RightToLeft
deriving DecidableEq

/-- `PRECEDENCE_TABLE`, entry for entry.  In the source the two `Unary` rows
are commented out, the `(Binary(CompLTE), (LeftToRight, 4))` row appears
twice, and there is no `CompGTE` row; the duplicate is kept here (a `HashMap`
built from the list keeps one copy of duplicate keys with the same value,
which an association-list lookup also yields). -/
def PRECEDENCE_TABLE : List (Operator × (Associativity × Nat)) :=
  [(.Binary .Mul, (.LeftToRight, 7)),
   (.Binary .Div, (.LeftToRight, 7)),
   (.Binary .Rem, (.LeftToRight, 7)),
   (.Binary .Add, (.LeftToRight, 6)),
   (.Binary .Sub, (.LeftToRight, 6)),
   (.Binary .RShift, (.LeftToRight, 5)),
   (.Binary .LShift, (.LeftToRight, 5)),
   (.Binary .CompLT, (.LeftToRight, 4)),
   (.Binary .CompGT, (.LeftToRight, 4)),
   (.Binary .CompLTE, (.LeftToRight, 4)),
   (.Binary .CompLTE, (.LeftToRight, 4)),
   (.Binary .CompEq, (.LeftToRight, 3)),
   (.Binary .CompNe, (.LeftToRight, 3))]

/-- `operator_precedence`: the table lookup; the `expect` panic on a missing
operator is modelled as `none`. -/
def operator_precedence (key : Operator) : Option (Associativity × Nat) :=
  PRECEDENCE_TABLE.lookup key

/-! ## Expression AST and Pratt parser (`src/internals/rosac_parser/src/expr.rs`,
`lib.rs`)

The parser owns a buffered lexer; here the remaining token stream is the list
`toks` and `consume`/`peek` act on its head.  `peek_tok().unwrap()` panics on
an exhausted stream — modelled as `none`.  The `parse!` macro's behaviour is
inlined at each use: `Ok` continues, `Fuzzy(v, diags)` emits the diagnostics
into the context (field `diags`) and continues with `v`, `Err` returns the
error.  All loops and the mutual recursion run on a structural `fuel`
counter; `none` also means the counter ran out. -/

mutual

/-- `Expression` — an inner node plus its span (`loc`). -/
inductive Expression where
  | mk (expr : ExpressionInner) (loc : Span)

/-- `ExpressionInner`. -/
inductive ExpressionInner where
  | BinaryExpr (lhs : Expression) (op : BinaryOp) (rhs : Expression)
  | UnaryExpr (op : UnaryOp) (operand : Expression)
  | IntLiteral (i : Nat)

end

/-- The `loc` field of an `Expression`. -/
def Expression.loc : Expression → Span
  | .mk _ l => l

/-- The parser state: the remaining token stream of the buffered lexer, the
`current_precedence` counter, the indent stack, and the diagnostics
accumulated in the shared context. -/
structure Parser where
  toks : List Token
  current_precedence : Nat
  indent : List Nat
  diags : List Diag

/-- `Parser::new`. -/
def Parser.new (toks : List Token) : Parser :=
  { toks := toks, current_precedence := 0, indent := [0], diags := [] }

/-- `Parser::try_peek_tok` (`peek_tok` additionally unwraps). -/
def Parser.peek_tok (p : Parser) : Option Token :=
  p.toks.head?

/-- `Parser::consume_tok`. -/
def Parser.consume_tok (p : Parser) : Option Token × Parser :=
  match p.toks with
  | [] => (none, p)
  | t :: rest => (some t, { p with toks := rest })

/-- `parse_intlit_expr`: `expect_token!(parser => [Int(i), *i], [IntLiteral])`.
`none` models the `peek_tok` panic on an exhausted stream. -/
def parse_intlit_expr (p : Parser) : Option (Fuzzy Expression Diag × Parser) :=
  match p.toks with
  | { tt := .Int i, loc := loc } :: rest =>
    some (.Ok (.mk (.IntLiteral i) loc), { p with toks := rest })
  | t :: _ => some (.Err ⟨t.loc⟩, p)
  | [] => none

mutual

/-- `<Expression as AstNode>::parse`: parse an `ExpressionInner` primary, then
run the `binary_times` loop. -/
def Expression.parse (fuel : Nat) (p : Parser) :
    Option (Fuzzy Expression Diag × Parser) :=
  match fuel with
  | 0 => none
  | fuel + 1 =>
    match ExpressionInner.parse fuel p with
    | none => none
    | some (.Err e, pe) => some (.Err e, pe)
    | some (.Ok lhs, p₁) => Expression.parse_loop fuel p₁ lhs 0
    | some (.Fuzzy lhs ds, p₁) =>
      Expression.parse_loop fuel { p₁ with diags := p₁.diags ++ ds } lhs 0
termination_by structural fuel

/-- The `loop { lhs = match …; if binary_times >= 2 { binary_times = 0 } }`
body of `Expression::parse`.  `binary_times` is a `u8` counter (`+= 1` wraps
mod 256). -/
def Expression.parse_loop (fuel : Nat) (p : Parser) (lhs : Expression)
    (binary_times : Nat) : Option (Fuzzy Expression Diag × Parser) :=
  match fuel with
  | 0 => none
  | fuel + 1 =>
    match p.peek_tok with
    | none => none
    | some t =>
      match t.tt with
      | .Punct pu =>
        if (BinaryOp.from_punct pu).isSome && binary_times != 1 then
          let bt₁ := (binary_times + 1) % 256
          let bt₂ := if 2 ≤ bt₁ then 0 else bt₁
          match parse_binary_expr fuel p p.current_precedence lhs with
          | none => none
          | some (.Err e, pe) => some (.Err e, pe)
          | some (.Ok lhs₁, p₁) => Expression.parse_loop fuel p₁ lhs₁ bt₂
          | some (.Fuzzy lhs₁ ds, p₁) =>
            Expression.parse_loop fuel { p₁ with diags := p₁.diags ++ ds } lhs₁ bt₂
        else some (.Ok lhs, p)
      | _ => some (.Ok lhs, p)
termination_by structural fuel

/-- `<ExpressionInner as AstNode>::parse`: dispatch on the peeked token —
integer literal, left unary operator, or "expected expression" error. -/
def ExpressionInner.parse (fuel : Nat) (p : Parser) :
    Option (Fuzzy Expression Diag × Parser) :=
  match fuel with
  | 0 => none
  | fuel + 1 =>
    match p.peek_tok with
    | none => none
    | some t =>
      match t.tt with
      | .Int _ => parse_intlit_expr p
      | .Punct punct =>
        if (match UnaryOp.from_punct punct with
            | some op => op.is_left
            | none => false) then
          parse_left_unary_expr fuel p
        else some (.Err ⟨t.loc⟩, p)
      | _ => some (.Err ⟨t.loc⟩, p)
termination_by structural fuel

/-- `parse_left_unary_expr`: consume the operator punct, set the parser's
`current_precedence` from the precedence table (whose `Unary` rows are
commented out in the source, so `operator_precedence` panics — `none`), parse
the operand and wrap it. -/
def parse_left_unary_expr (fuel : Nat) (p : Parser) :
    Option (Fuzzy Expression Diag × Parser) :=
  match fuel with
  | 0 => none
  | fuel + 1 =>
    match p.toks with
    | [] => none
    | t :: rest =>
      match t.tt with
      | .Punct punct =>
        let lhs := t.loc
        let p₁ : Parser := { p with toks := rest }
        match UnaryOp.from_punct punct with
        | some v =>
          if v.is_left then
            match operator_precedence (.Unary v) with
            | none => none
            | some pr =>
              let p₂ : Parser := { p₁ with current_precedence := pr.2 }
              match Expression.parse fuel p₂ with
              | none => none
              | some (.Err e, pe) => some (.Err e, pe)
              | some (.Ok operand, p₃) =>
                some (.Ok (.mk (.UnaryExpr v operand)
                  (Span.from_ends lhs operand.loc)), p₃)
              | some (.Fuzzy operand ds, p₃) =>
                some (.Ok (.mk (.UnaryExpr v operand)
                  (Span.from_ends lhs operand.loc)),
                  { p₃ with diags := p₃.diags ++ ds })
          else some (.Err ⟨lhs⟩, p₁)
        | none => some (.Err ⟨lhs⟩, p₁)
      | _ => some (.Err ⟨t.loc⟩, p)
termination_by structural fuel

/-- `parse_binary_expr` — the outer `while let Punct = peek` loop: stop on a
non-operator or a precedence below `min_precedence`; otherwise consume the
operator, parse a primary `rhs`, run the look-ahead loop, fold into a
`BinaryExpr` and continue. -/
def parse_binary_expr (fuel : Nat) (p : Parser) (min_precedence : Nat)
    (lhs : Expression) : Option (Fuzzy Expression Diag × Parser) :=
  match fuel with
  | 0 => none
  | fuel + 1 =>
    match p.peek_tok with
    | none => none
    | some t =>
      match t.tt with
      | .Punct punct =>
        (match BinaryOp.from_punct punct with
         | none => some (.Ok lhs, p)
         | some op =>
           match operator_precedence (.Binary op) with
           | none => none
           | some (_, op_precede) =>
             if op_precede < min_precedence then some (.Ok lhs, p)
             else
               let p₁ := (p.consume_tok).2
               match ExpressionInner.parse fuel p₁ with
               | none => none
               | some (.Err e, pe) => some (.Err e, pe)
               | some (.Ok rhs, p₂) =>
                 parse_binary_fold fuel p₂ min_precedence lhs op op_precede rhs
               | some (.Fuzzy rhs ds, p₂) =>
                 parse_binary_fold fuel { p₂ with diags := p₂.diags ++ ds }
                   min_precedence lhs op op_precede rhs)
      | _ => some (.Ok lhs, p)
termination_by structural fuel

/-- The tail of one `parse_binary_expr` iteration: run the look-ahead loop on
`rhs`, then `lhs = BinaryExpr { lhs, op, rhs }` with span `lhs.lo..rhs.hi`
and continue the outer loop. -/
def parse_binary_fold (fuel : Nat) (p : Parser) (min_precedence : Nat)
    (lhs : Expression) (op : BinaryOp) (op_precede : Nat) (rhs : Expression) :
    Option (Fuzzy Expression Diag × Parser) :=
  match fuel with
  | 0 => none
  | fuel + 1 =>
    match parse_binary_lookahead fuel p op_precede rhs with
    | none => none
    | some (.Err e, pe) => some (.Err e, pe)
    | some (.Ok rhs₁, p₃) =>
      parse_binary_expr fuel p₃ min_precedence
        (.mk (.BinaryExpr lhs op rhs₁) (Span.from_ends lhs.loc rhs₁.loc))
    | some (.Fuzzy rhs₁ ds, p₃) =>
      parse_binary_expr fuel { p₃ with diags := p₃.diags ++ ds } min_precedence
        (.mk (.BinaryExpr lhs op rhs₁) (Span.from_ends lhs.loc rhs₁.loc))
termination_by structural fuel

/-- The inner look-ahead `while` loop of `parse_binary_expr`: while the next
token is a binary operator that binds strictly tighter (or as tight, under
right associativity), recurse into `parse_binary_expr` on `rhs`. -/
def parse_binary_lookahead (fuel : Nat) (p : Parser) (op_precede : Nat)
    (rhs : Expression) : Option (Fuzzy Expression Diag × Parser) :=
  match fuel with
  | 0 => none
  | fuel + 1 =>
    match p.peek_tok with
    | none => none
    | some t =>
      match t.tt with
      | .Punct lh_punct =>
        (match BinaryOp.from_punct lh_punct with
         | none => some (.Ok rhs, p)
         | some lh_op =>
           match operator_precedence (.Binary lh_op) with
           | none => none
           | some (lh_assoc, lh_op_precede) =>
             let brk : Bool :=
               match lh_assoc with
               | .LeftToRight => decide (lh_op_precede ≤ op_precede)
               | .RightToLeft => decide (lh_op_precede < op_precede)
             if brk then some (.Ok rhs, p)
             else
               match parse_binary_expr fuel p lh_op_precede rhs with
               | none => none
               | some (.Err e, pe) => some (.Err e, pe)
               | some (.Ok rhs₁, p₁) =>
                 parse_binary_lookahead fuel p₁ op_precede rhs₁
               | some (.Fuzzy rhs₁ ds, p₁) =>
                 parse_binary_lookahead fuel { p₁ with diags := p₁.diags ++ ds }
                   op_precede rhs₁)
      | _ => some (.Ok rhs, p)
termination_by structural fuel

end

/-! ## Lexer (`src/internals/rosac_lexer/src/lib.rs`, `literals.rs`)

`LexrFile` wraps the source text (`filetext.char_indices().peekable()`): the
text is the character list `filetext`, the iterator position is `iter_idx`
(characters already yielded), and `idx` is the byte offset of the most
recently popped character.  `Lexer.idx`, by contrast, is a plain pop counter
(`self.idx += 1` per `pop`), so token spans count characters, not bytes. -/

/-- The byte length of a character list (UTF-8). -/
def utf8_len (l : List Char) : Nat :=
  l.foldl (fun acc c => acc + c.utf8Size) 0

/-- `LexrFile`. -/
structure LexrFile where
  filetext : List Char
  iter_idx : Nat
  idx : Nat

/-- `LexrFile::new`. -/
def LexrFile.new (filetext : List Char) : LexrFile :=
  { filetext := filetext, iter_idx := 0, idx := 0 }

/-- `LexrFile::pop`: `let (i, ch) = self.iter.next()?; self.idx = i; Some(ch)`
— `i` is the byte offset of the yielded character. -/
def LexrFile.pop (f : LexrFile) : Option Char × LexrFile :=
  match f.filetext.get? f.iter_idx with
  | some ch =>
    let i := utf8_len (f.filetext.take f.iter_idx)
    (some ch, { f with iter_idx := f.iter_idx + 1, idx := i })
  | none => (none, f)

/-- `LexrFile::peek`. -/
def LexrFile.peek (f : LexrFile) : Option Char :=
  f.filetext.get? f.iter_idx

/-- `LexrFile::length`: "the count of how many Unicode characters there is in
the source code file" (`self.filetext.chars().count()`). -/
def LexrFile.length (f : LexrFile) : Nat :=
  f.filetext.length

/-- `Lexer`. -/
structure Lexer where
  file : LexrFile
  prev_idx : Nat
  idx : Nat

/-- `Lexer::new`. -/
def Lexer.new (filetext : List Char) : Lexer :=
  { file := LexrFile.new filetext, prev_idx := 0, idx := 0 }

/-- `Lexer::pop`: `self.idx += 1; self.file.pop()` — the counter is bumped
even when the iterator is exhausted. -/
def Lexer.pop (lx : Lexer) : Option Char × Lexer :=
  let r := lx.file.pop
  (r.1, { lx with idx := lx.idx + 1, file := r.2 })

/-- `Lexer::peek`. -/
def Lexer.peek (lx : Lexer) : Option Char :=
  lx.file.peek

/-- `Lexer::expect`: pop and assert the popped character; the `unwrap` and the
`assert_eq!` panics are `none`. -/
def Lexer.expect (lx : Lexer) (expected : Char) : Option Lexer :=
  match lx.pop with
  | (some c, lx₁) => if c = expected then some lx₁ else none
  | (none, _) => none

/-- `Lexer::current_span`. -/
def Lexer.current_span (lx : Lexer) : Span :=
  { lo := lx.prev_idx, hi := lx.idx }

/-- `Lexer::current_span_end`. -/
def Lexer.current_span_end (lx : Lexer) : Span :=
  { lo := lx.prev_idx, hi := lx.idx - 1 }

/-- The whitespace class skipped by `skip_useless_whitespace` (ordinary space
plus the fixed list of Unicode whitespace scalars). -/
def is_useless_whitespace (c : Char) : Bool :=
  c = ' ' ||
  ('\u000B' ≤ c && c ≤ '\u000D') || c = '\u0085' || c = '\u00A0' ||
  c = '\u1680' || ('\u2000' ≤ c && c ≤ '\u200A') || c = '\u2028' ||
  c = '\u2029' || c = '\u202F' || c = '\u205F' || c = '\u3000'

/-- `Lexer::skip_useless_whitespace`: `while let Some(c) = self.peek()` — one
unit of the iteration counter per popped character. -/
def skip_useless_whitespace (fuel : Nat) (lx : Lexer) : Option Lexer :=
  match fuel with
  | 0 => none
  | fuel + 1 =>
    match lx.peek with
    | some c =>
      if is_useless_whitespace c then skip_useless_whitespace fuel (lx.pop).2
      else some lx
    | none => some lx

/-- The `while self.pop() != Some('\n') {}` loop of `skip_comments`.  At end
of input `pop` returns `None` forever, so the Rust loop diverges on an
unterminated final comment; here the iteration counter runs out (`none`). -/
def skip_comments_line (fuel : Nat) (lx : Lexer) : Option Lexer :=
  match fuel with
  | 0 => none
  | fuel + 1 =>
    match lx.pop with
    | (some ch, lx₁) =>
      if ch = '\n' then some lx₁ else skip_comments_line fuel lx₁
    | (none, lx₁) => skip_comments_line fuel lx₁

/-- `Lexer::skip_comments`: on `#`, consume through the newline, skip
whitespace, then try again (comments chain). -/
def skip_comments (fuel : Nat) (lx : Lexer) : Option Lexer :=
  match fuel with
  | 0 => none
  | fuel + 1 =>
    match lx.peek with
    | some ch =>
      if ch = '#' then
        match skip_comments_line fuel lx with
        | none => none
        | some lx₁ =>
          match skip_useless_whitespace fuel lx₁ with
          | none => none
          | some lx₂ => skip_comments fuel lx₂
      else some lx
    | none => some lx

/-- `char::is_numeric` restricted to the characters `make_word` is called on
(`'A'..='Z' | 'a'..='z' | '_' | '0'..='9'`, all ASCII), where it coincides
with being an ASCII digit. -/
def rust_is_numeric (c : Char) : Bool :=
  c.isDigit

/-- The collection loop of `Lexer::make_word`: letters extend the word and
clear `numeric`; digits and underscores extend it; anything else stops.  The
popped characters advance the lexer. -/
def make_word_aux (fuel : Nat) (lx : Lexer) (word : List Char) (numeric : Bool) :
    Option (List Char × Bool × Lexer) :=
  match fuel with
  | 0 => none
  | fuel + 1 =>
    match lx.peek with
    | some c =>
      if c.isUpper || c.isLower then
        make_word_aux fuel (lx.pop).2 (word ++ [c]) false
      else if c.isDigit || c = '_' then
        make_word_aux fuel (lx.pop).2 (word ++ [c]) numeric
      else some (word, numeric, lx)
    | none => some (word, numeric, lx)

/-- `Lexer::make_word`: start from the already-popped character `c` with
`numeric = c.is_numeric()`. -/
def make_word (fuel : Nat) (lx : Lexer) (c : Char) :
    Option (List Char × Bool × Lexer) :=
  make_word_aux fuel lx [c] (rust_is_numeric c)

/-- `ParseUIntError`. -/
inductive ParseUIntError where
  | InvalidRadix
  | InvalidCharacter (loc : Span)
  | DigitOutOfRange (loc : Span)
  | IntegerOverflow
deriving DecidableEq

/-- `u64::checked_mul`. -/
def checked_mul_u64 (a b : Nat) : Option Nat :=
  if a * b < 2 ^ 64 then some (a * b) else none

/-- `u64::checked_add`. -/
def checked_add_u64 (a b : Nat) : Option Nat :=
  if a + b < 2 ^ 64 then some (a + b) else none

/-- The `for (i, c) in input.char_indices()` loop of `parse_u64`; `i` is the
byte offset of `c` inside the word. -/
def parse_u64_loop (radix : Nat) : List Char → Nat → Nat → Except ParseUIntError Nat
  | [], _, result => .ok result
  | c :: rest, i, result =>
    let step : Nat → Except ParseUIntError Nat := fun digit =>
      if radix ≤ digit then .error (.DigitOutOfRange (Span.new i (i + 1)))
      else
        match checked_mul_u64 result radix with
        | none => .error .IntegerOverflow
        | some r =>
          match checked_add_u64 r digit with
          | none => .error .IntegerOverflow
          | some val => parse_u64_loop radix rest (i + c.utf8Size) val
    if c.isDigit then step (c.toNat - 48)
    else if 'a' ≤ c && c ≤ 'z' then step (c.toNat - 97 + 10)
    else if 'A' ≤ c && c ≤ 'Z' then step (c.toNat - 65 + 10)
    else if c = '_' then parse_u64_loop radix rest (i + c.utf8Size) result
    else .error (.InvalidCharacter (Span.new i (i + 1)))

/-- `parse_u64`: radix-checked accumulator parse of a word into a `u64`. -/
def parse_u64 (input : List Char) (radix : Nat) : Except ParseUIntError Nat :=
  if ¬(2 ≤ radix ∧ radix ≤ 36) then .error .InvalidRadix
  else parse_u64_loop radix input 0 0

/-- `Lexer::make_int`: run `parse_u64` and turn its errors into diagnostics
(only their spans are modelled). -/
def make_int (lx : Lexer) (num : List Char) (radix : Nat) : Except Diag Nat :=
  match parse_u64 num radix with
  | .ok number => .ok number
  | .error .IntegerOverflow => .error ⟨lx.current_span⟩
  | .error (.DigitOutOfRange loc) => .error ⟨loc.offset lx.prev_idx⟩
  | .error (.InvalidCharacter loc) => .error ⟨loc.offset (lx.idx - 2)⟩
  | .error .InvalidRadix => .error ⟨lx.current_span⟩

/-- `Lexer::lex_int`. -/
def lex_int (lx : Lexer) (num : List Char) : Fuzzy Token Diag :=
  match make_int lx num 10 with
  | .ok lit => .Ok ⟨.Int lit, lx.current_span⟩
  | .error diag => .Err diag

/-- `Lexer::lex_keyword`: keyword on an exact match, identifier otherwise. -/
def lex_keyword (word : List Char) : TokenType :=
  match Keyword.from_str (String.mk word) with
  | some kw => .KW kw
  | none => .Ident (String.mk word)

/-- `Lexer::lex_word`: collect the word; numeric words go to `lex_int`
(returned directly), others through `lex_keyword`. -/
def lex_word (fuel : Nat) (lx : Lexer) (c : Char) :
    Option (Fuzzy Token Diag × Lexer) :=
  match make_word fuel lx c with
  | none => none
  | some (word, numeric, lx₁) =>
    if numeric then some (lex_int lx₁ word, lx₁)
    else some (.Ok ⟨lex_keyword word, lx₁.current_span⟩, lx₁)

/-- `Lexer::make_hex_es`: pop two characters (`None` is an "unterminated
string literal" diagnostic), parse them in radix 16, and cast `as u8 as char`. -/
def make_hex_es (lx : Lexer) : Except Diag Char × Lexer :=
  match lx.pop with
  | (none, lx₁) => (.error ⟨lx₁.current_span⟩, lx₁)
  | (some c₁, lx₁) =>
    match lx₁.pop with
    | (none, lx₂) => (.error ⟨lx₂.current_span⟩, lx₂)
    | (some c₂, lx₂) =>
      match make_int lx₂ [c₁, c₂] 16 with
      | .ok n => (.ok (Char.ofNat (n % 256)), lx₂)
      | .error d => (.error d, lx₂)

/-- `Lexer::make_escape_sequence`. -/
def make_escape_sequence (lx : Lexer) (es : Char) : Except Diag Char × Lexer :=
  match es with
  | '0' => (.ok (Char.ofNat 0), lx)
  | 'n' => (.ok '\n', lx)
  | 'r' => (.ok '\r', lx)
  | 't' => (.ok '\t', lx)
  | 'x' => make_hex_es lx
  | 'u' => (.error ⟨Span.new (lx.idx - 2) lx.idx⟩, lx)
  | _ => (.error ⟨Span.new (lx.idx - 2) lx.idx⟩, lx)

/-- The collection loop of `Lexer::lex_str`: closing quote ends the literal;
a backslash starts an escape (an unknown escape pushes a recoverable
diagnostic and the literal stays usable — the `Fuzzy` outcome); end of input
is an unterminated-string error. -/
def lex_str_loop (fuel : Nat) (lx : Lexer) (str : List Char) (diags : List Diag) :
    Option (Fuzzy Token Diag × Lexer) :=
  match fuel with
  | 0 => none
  | fuel + 1 =>
    match lx.peek with
    | some '"' =>
      (match lx.expect '"' with
       | none => none
       | some lx₁ =>
         let tok : Token := ⟨.Str (String.mk str), lx₁.current_span⟩
         if diags.isEmpty then some (.Ok tok, lx₁)
         else some (.Fuzzy tok diags, lx₁))
    | some '\\' =>
      (match lx.expect '\\' with
       | none => none
       | some lx₁ =>
         match lx₁.pop with
         | (none, lx₂) => lex_str_loop fuel lx₂ str diags
         | (some es, lx₂) =>
           if es = '"' then lex_str_loop fuel lx₂ (str ++ [es]) diags
           else
             match make_escape_sequence lx₂ es with
             | (.ok res, lx₃) => lex_str_loop fuel lx₃ (str ++ [res]) diags
             | (.error d, lx₃) => lex_str_loop fuel lx₃ str (diags ++ [d]))
    | some c =>
      (match lx.expect c with
       | none => none
       | some lx₁ => lex_str_loop fuel lx₁ (str ++ [c]) diags)
    | none => some (.Err ⟨lx.current_span_end⟩, lx)

/-- `Lexer::lex_str`. -/
def lex_str (fuel : Nat) (lx : Lexer) : Option (Fuzzy Token Diag × Lexer) :=
  lex_str_loop fuel lx [] []

/-- Modelled from the spec: `Lexer::lex_char` is called by `Lexer::lex` but no
source file defines it.  Per §4.3 a char literal is "symmetric with string,
one scalar only": one scalar (escapes as in strings, unknown escapes
recoverable), then the closing quote; end of input is an unterminated-literal
error. -/
def lex_char (lx : Lexer) : Option (Fuzzy Token Diag × Lexer) :=
  let close : Char → List Diag → Lexer → Option (Fuzzy Token Diag × Lexer) :=
    fun c ds lxc =>
      match lxc.pop with
      | (some q, lx₁) =>
        if q = '\'' then
          let tok : Token := ⟨.Char c, lx₁.current_span⟩
          if ds.isEmpty then some (.Ok tok, lx₁) else some (.Fuzzy tok ds, lx₁)
        else some (.Err ⟨lx₁.current_span⟩, lx₁)
      | (none, lx₁) => some (.Err ⟨lx₁.current_span_end⟩, lx₁)
  match lx.pop with
  | (none, lx₁) => some (.Err ⟨lx₁.current_span_end⟩, lx₁)
  | (some '\\', lx₁) =>
    (match lx₁.pop with
     | (none, lx₂) => some (.Err ⟨lx₂.current_span_end⟩, lx₂)
     | (some es, lx₂) =>
       match make_escape_sequence lx₂ es with
       | (.ok res, lx₃) => close res [] lx₃
       | (.error d, lx₃) => close es [d] lx₃)
  | (some c, lx₁) => close c [] lx₁

/-- `Lexer::could_make_punct`: the punctuation table, with one character of
lookahead for the two-character puncts. -/
def could_make_punct (lx : Lexer) (c : Char) : Option Punctuation :=
  if c = '(' then some .RParen
  else if c = ')' then some .LParen
  else if c = '[' then some .RBracket
  else if c = ']' then some .LBracket
  else if c = '\x7b' then some .RBrace
  else if c = '\x7d' then some .LBrace
  else if c = ':' then some .Colon
  else if c = ';' then some .Semi
  else if c = ',' then some .Comma
  else if c = '@' then some .At
  else if c = '*' then some .Asterisk
  else if c = '^' then some .Caret
  else if c = '.' then some .Dot
  else if c = '-' then some .Minus
  else if c = '%' then some .Percent
  else if c = '+' then some .Plus
  else if c = '/' then some .Slash
  else if c = '!' then
    (match lx.peek with
     | some '=' => some .ExclamationmarkEqual
     | _ => some .Exclamationmark)
  else if c = '=' then
    (match lx.peek with
     | some '=' => some .Equal2
     | _ => some .Equal)
  else if c = '<' then
    (match lx.peek with
     | some '<' => some .LArrow2
     | some '=' => some .LArrowEqual
     | _ => some .LArrow)
  else if c = '>' then
    (match lx.peek with
     | some '>' => some .RArrow2
     | some '=' => some .RArrowEqual
     | _ => some .RArrow)
  else none

/-- `for _ in 0..k { self.pop(); }`. -/
def pop_n (k : Nat) (lx : Lexer) : Lexer :=
  match k with
  | 0 => lx
  | k + 1 => pop_n k (lx.pop).2

/-- `Lexer::lex`: skip whitespace and comments, remember `prev_idx`, then
dispatch on the next character: word, newline, string, char, punctuation
(popping its extra width), unknown-token error, or — at end of input — the
`EndOfFile` token with span `Span::new(len - 1, len)` where `len` is the
character count of the file (`Span::new(0 - 1, 0)` would panic on an empty
file: `none`). -/
def lex (fuel : Nat) (lx : Lexer) : Option (Fuzzy Token Diag × Lexer) :=
  match skip_useless_whitespace fuel lx with
  | none => none
  | some lx₁ =>
    match skip_comments fuel lx₁ with
    | none => none
    | some lx₂ =>
      let lx₃ : Lexer := { lx₂ with prev_idx := lx₂.idx }
      match lx₃.pop with
      | (some c, lx₄) =>
        if c.isUpper || c.isLower || c = '_' || c.isDigit then lex_word fuel lx₄ c
        else if c = '\n' then some (.Ok ⟨.NewLine, lx₄.current_span⟩, lx₄)
        else if c = '"' then lex_str fuel lx₄
        else if c = '\'' then lex_char lx₄
        else
          match could_make_punct lx₄ c with
          | some punct =>
            let lx₅ := pop_n (punct.size - 1) lx₄
            some (.Ok ⟨.Punct punct, lx₅.current_span⟩, lx₅)
          | none => some (.Err ⟨lx₄.current_span⟩, lx₄)
      | (none, lx₄) =>
        match lx₄.file.length with
        | 0 => none
        | len + 1 => some (.Ok ⟨.EOF, Span.new len (len + 1)⟩, lx₄)

/-! ## Diagnostic caret data (`src/internals/rosa_errors/src/lib.rs`,
`src/compiler/rosa_comm/src/lib.rs`)

`LinesData` maps a line number to the list of caret column ranges (1-based,
half-open `start..end`) on that line; the `HashMap<u32, Vec<Range<u32>>>`
becomes an association list (key order never matters: `lines()` sorts and
lookups are by key). -/

/-- `LineCol` — 1-based line and column. -/
structure LineCol where
  line : Nat
  col : Nat
deriving DecidableEq

/-- `FullLinePos = Range<LineCol>` — the `(start, end)` positions of one
primary span. -/
structure FullLinePos where
  start : LineCol
  stop : LineCol
deriving DecidableEq

/-- `LinesData`. -/
structure LinesData where
  p : List (Nat × List (Nat × Nat))
deriving DecidableEq

/-- `LinesData::new`. -/
def LinesData.new : LinesData :=
  { p := [] }

/-- `LinesData::contains_line`. -/
def LinesData.contains_line (d : LinesData) (line : Nat) : Bool :=
  (d.p.lookup line).isSome

/-- `LinesData::insert_inline`: append a range to an existing line's list;
`None` when the line is absent (`self.p.get_mut(&line)?`). -/
def LinesData.insert_inline (d : LinesData) (line : Nat) (span : Nat × Nat) :
    Option LinesData :=
  if (d.p.lookup line).isSome then
    some { p := d.p.map (fun e => if e.1 = line then (e.1, e.2 ++ [span]) else e) }
  else none

/-- `LinesData::push`: `self.p.insert(line, poses)?; Some(())` —
`HashMap::insert` stores the entry (replacing any old one) and returns the
old value, so the function's `Option` result is `none` exactly when the line
was new, although the insertion has happened either way. -/
def LinesData.push (d : LinesData) (line : Nat) (poses : List (Nat × Nat)) :
    LinesData × Option Unit :=
  if (d.p.lookup line).isSome then
    ({ p := d.p.map (fun e => if e.1 = line then (line, poses) else e) }, some ())
  else ({ p := d.p ++ [(line, poses)] }, none)

/-- `LinesData::push_or_append`: append to a present line, insert a fresh
singleton otherwise (the `Option` result of `push` is discarded in the
source). -/
def LinesData.push_or_append (d : LinesData) (line : Nat) (r : Nat × Nat) :
    Option LinesData :=
  if d.contains_line line then d.insert_inline line r
  else some (d.push line [r]).1

/-- The diagnostic context, reduced to what `build_lines_data` consumes: the
source split into lines (`filetext.lines()`). -/
structure DiagCtxt where
  lines : List (List Char)

/-- `DiagCtxt::get_line` (1-based). -/
def DiagCtxt.get_line (dcx : DiagCtxt) (line : Nat) : Option (List Char) :=
  dcx.lines.get? (line - 1)

/-- `DiagCtxt::get_line_width`: the byte length of the line. -/
def DiagCtxt.get_line_width (dcx : DiagCtxt) (line : Nat) : Option Nat :=
  (dcx.get_line line).map utf8_len

/-- One `for prim in prim_pos` iteration of `DiagInner::build_lines_data`.
For a multi-line span: mark the start line from its start column to
end-of-line (`push_or_append` without `?`, `get_line_width(..).unwrap()`
panics as `none`), mark the single in-between line only when
`end.line - start.line == 2`, then mark the end line's columns `1..end.col+1`.
In every case the trailing unconditional call marks `start.col..end.col` on
the start line. -/
def build_lines_data_one (dcx : DiagCtxt) (data : LinesData) (prim : FullLinePos) :
    Option LinesData :=
  let step1 : Option LinesData :=
    if prim.start.line ≠ prim.stop.line then
      match dcx.get_line_width prim.start.line with
      | none => none
      | some w₀ =>
        let d₁ := (data.push_or_append prim.start.line (prim.start.col, w₀ + 1)).getD data
        let diff := prim.stop.line - prim.start.line
        let d₂opt : Option LinesData :=
          if diff = 2 then
            let l := prim.start.line + 1
            match dcx.get_line_width l with
            | none => none
            | some w₁ => d₁.push_or_append l (1, w₁ + 1)
          else some d₁
        match d₂opt with
        | none => none
        | some d₂ => d₂.push_or_append prim.stop.line (1, prim.stop.col + 1)
    else some data
  match step1 with
  | none => none
  | some d₃ => d₃.push_or_append prim.start.line (prim.start.col, prim.stop.col)

/-- `DiagInner::build_lines_data`: fold the per-span marking over all primary
spans, starting from an empty `LinesData`. -/
def build_lines_data (dcx : DiagCtxt) : List FullLinePos → LinesData → Option LinesData
  | [], data => some data
  | prim :: rest, data =>
    match build_lines_data_one dcx data prim with
    | none => none
    | some d => build_lines_data dcx rest d

/-! ## C1 helpers -/

theorem ones_before_zero_encoded :
    ∀ o < 8, ∀ h < 2 ^ (7 - o),
      ones_before_zero ((((2 ^ o - 1) <<< (8 - o)) % 256) ||| h) = o := by decide

theorem xor_mask_encoded :
    ∀ o < 8, ∀ h < 2 ^ (7 - o),
      ((((2 ^ o - 1) <<< (8 - o)) % 256) ||| h) ^^^ (((2 ^ o - 1) <<< (8 - o)) % 256) = h := by
  decide

theorem bits_shift_eq : ∀ o < 8, bits_dyn_int o - bits_dyn_int o % 8 = 8 * o := by decide

theorem bits_eq : ∀ o < 8, bits_dyn_int o = 7 + 7 * o := by decide

theorem to_be_bytes_get (n : Nat) : ∀ j < 8,
    (to_be_bytes n).get? j = some ((n >>> (8 * (7 - j))) % 256) := by
  intro j hj
  interval_cases j <;> rfl

theorem decode_loop_spec (buf : List Nat) (o n : Nat) (ho : o ≤ 7)
    (hbuf : ∀ m, 1 ≤ m → m ≤ o → buf.get? m = some ((n >>> (8 * (o - m))) % 256)) :
    ∀ k, k ≤ o →
      DynamicInt.decode_loop buf o k (o + 1 - k) ((n >>> (8 * k)) * 2 ^ (8 * k)) = some n := by
  intro k
  induction k with
  | zero =>
    intro _
    simp [DynamicInt.decode_loop]
  | succ k ih =>
    intro hk
    have hofs : o + 1 - (k + 1) = o - k := by omega
    have hm1 : 1 ≤ o - k := by omega
    have hm2 : o - k ≤ o := by omega
    have hidx : o - (o - k) = k := by omega
    rw [hofs]
    rw [DynamicInt.decode_loop]
    rw [hbuf (o - k) hm1 hm2, hidx]
    show DynamicInt.decode_loop buf o k (o - k + 1)
      ((n >>> (8 * (k + 1))) * 2 ^ (8 * (k + 1)) |||
        ((n >>> (8 * k) % 256) <<< (8 * k)) % 2 ^ 64) = some n
    -- the shifted field collapses under `% 2 ^ 64`
    have hx : n >>> (8 * k) % 256 < 2 ^ 8 := Nat.mod_lt _ (by norm_num)
    have hfield : ((n >>> (8 * k) % 256) <<< (8 * k)) % 2 ^ 64
        = (n >>> (8 * k) % 256) * 2 ^ (8 * k) := by
      rw [Nat.shiftLeft_eq]
      apply Nat.mod_eq_of_lt
      calc (n >>> (8 * k) % 256) * 2 ^ (8 * k)
          < 2 ^ 8 * 2 ^ (8 * k) := by
            exact mul_lt_mul_of_pos_right hx (by positivity)
        _ = 2 ^ (8 + 8 * k) := by rw [Nat.pow_add]
        _ ≤ 2 ^ 64 := Nat.pow_le_pow_right (by norm_num) (by omega)
    rw [hfield]
    -- the accumulated result and the new field occupy disjoint bit ranges
    have hor : (n >>> (8 * (k + 1))) * 2 ^ (8 * (k + 1)) |||
        (n >>> (8 * k) % 256) * 2 ^ (8 * k) = (n >>> (8 * k)) * 2 ^ (8 * k) := by
      have hb : (n >>> (8 * k) % 256) * 2 ^ (8 * k) < 2 ^ (8 * (k + 1)) := by
        calc (n >>> (8 * k) % 256) * 2 ^ (8 * k)
            < 2 ^ 8 * 2 ^ (8 * k) := mul_lt_mul_of_pos_right hx (by positivity)
          _ = 2 ^ (8 * (k + 1)) := by rw [← Nat.pow_add]; ring_nf
      have := Nat.mul_add_lt_is_or hb (n >>> (8 * (k + 1)))
      rw [Nat.mul_comm (2 ^ (8 * (k + 1)))] at this
      rw [← this]
      -- arithmetic: recombine the byte with the higher bits
      have hsr : n >>> (8 * (k + 1)) = (n >>> (8 * k)) / 2 ^ 8 := by
        rw [Nat.shiftRight_eq_div_pow, Nat.shiftRight_eq_div_pow,
          Nat.div_div_eq_div_mul, ← Nat.pow_add]
        ring_nf
      rw [hsr]
      have : (n >>> (8 * k)) / 2 ^ 8 * 2 ^ (8 * (k + 1))
          = ((n >>> (8 * k)) / 2 ^ 8 * 2 ^ 8) * 2 ^ (8 * k) := by
        rw [Nat.mul_assoc, ← Nat.pow_add]; ring_nf
      rw [this, ← Nat.add_mul]
      congr 1
      rw [show (256 : Nat) = 2 ^ 8 from rfl]
      exact Nat.div_add_mod' _ _
    rw [hor]
    have : o - k + 1 = o + 1 - k := by omega
    rw [this]
    exact ih (by omega)

theorem decode_encode_at (o n : Nat) (ho : o ≤ 7) (hon : ones_needed n = some o)
    (hsize : n ≤ size_dyn_int o) :
    (DynamicInt.encode n).bind DynamicInt.decode = some n := by
  have hbits : bits_dyn_int o = 7 + 7 * o := bits_eq o (by omega)
  have hsh : bits_dyn_int o - bits_dyn_int o % 8 = 8 * o := bits_shift_eq o (by omega)
  have hlt : n < 2 ^ (7 + 7 * o) := by
    have : size_dyn_int o = 2 ^ (7 + 7 * o) - 1 := by rw [size_dyn_int, hbits]
    have hpos : 0 < 2 ^ (7 + 7 * o) := by positivity
    omega
  have hpay : n >>> (8 * o) < 2 ^ (7 - o) := by
    rw [Nat.shiftRight_eq_div_pow]
    apply Nat.div_lt_of_lt_mul
    calc n < 2 ^ (7 + 7 * o) := hlt
      _ = 2 ^ (8 * o) * 2 ^ (7 - o) := by
        rw [← Nat.pow_add]
        congr 1
        omega
  have hpay256 : n >>> (8 * o) < 256 := by
    calc n >>> (8 * o) < 2 ^ (7 - o) := hpay
      _ ≤ 2 ^ 7 := Nat.pow_le_pow_right (by norm_num) (by omega)
      _ < 256 := by norm_num
  rcases Nat.eq_zero_or_pos o with rfl | hopos
  · -- one byte: the first byte is the value itself
    have hn127 : n < 128 := by
      have : size_dyn_int 0 = 127 := rfl
      omega
    have hfirst0 : DynamicInt.encode n = some [n] := by
      have hshift : (n >>> (bits_dyn_int 0 - bits_dyn_int 0 % 8)) % 256 = n := by
        norm_num [bits_dyn_int]
        omega
      simp [DynamicInt.encode, hon, hshift]
    have h1 : ones_before_zero n = 0 := by
      have := ones_before_zero_encoded 0 (by norm_num) n (by simpa using hn127)
      simpa using this
    rw [hfirst0]
    simp [DynamicInt.decode, h1]
  · -- 1 + o bytes
    set M := ((2 ^ o - 1) <<< (8 - o)) % 256 with hM
    set pay := n >>> (8 * o) with hpaydef
    have hmodpay : pay % 256 = pay := Nat.mod_eq_of_lt hpay256
    have hfirst : DynamicInt.encode n
        = some ((M ||| pay) :: (to_be_bytes n).drop (8 - o)) := by
      simp only [DynamicInt.encode, hon]
      rw [hsh]
      simp only [if_neg (by omega : ¬o = 0), hmodpay]
      congr 2
      simp [hM, if_pos (by omega : o ≠ 0)]
    rw [hfirst]
    have hobz : ones_before_zero (M ||| pay) = o :=
      ones_before_zero_encoded o (by omega) pay hpay
    have hxor : (M ||| pay) ^^^ M = pay :=
      xor_mask_encoded o (by omega) pay hpay
    have hfield : (pay <<< (o * 8)) % 2 ^ 64 = pay * 2 ^ (8 * o) := by
      rw [Nat.shiftLeft_eq, Nat.mul_comm o 8]
      apply Nat.mod_eq_of_lt
      calc pay * 2 ^ (8 * o) < 2 ^ (7 - o) * 2 ^ (8 * o) :=
            mul_lt_mul_of_pos_right hpay (by positivity)
        _ = 2 ^ (7 - o + 8 * o) := by rw [← Nat.pow_add]
        _ ≤ 2 ^ 64 := Nat.pow_le_pow_right (by norm_num) (by omega)
    show DynamicInt.decode ((M ||| pay) :: (to_be_bytes n).drop (8 - o)) = some n
    simp only [DynamicInt.decode, List.get?, hobz,
      if_neg (by omega : ¬o = 0), if_neg (by omega : ¬o = 8), ← hM, hxor,
      hfield, Nat.zero_or]
    have hbuf : ∀ m, 1 ≤ m → m ≤ o →
        ((M ||| pay) :: (to_be_bytes n).drop (8 - o)).get? m
          = some ((n >>> (8 * (o - m))) % 256) := by
      intro m hm1 hm2
      obtain ⟨m', rfl⟩ : ∃ m', m = m' + 1 := ⟨m - 1, by omega⟩
      have hexp : 7 - (8 - o + m') = o - (m' + 1) := by omega
      rw [List.get?_cons_succ, List.get?_drop]
      rw [to_be_bytes_get n (8 - o + m') (by omega), hexp]
    have := decode_loop_spec ((M ||| pay) :: (to_be_bytes n).drop (8 - o)) o n ho hbuf o le_rfl
    rw [Nat.add_sub_cancel_left] at this
    exact this

theorem ones_needed_aux_hit (fuel n lo k : Nat) (hk : k ≠ 8) (hlo : lo ≤ n)
    (h : n ≤ size_dyn_int k) :
    ones_needed_aux n (fuel + 1) lo k = some k := by
  simp [ones_needed_aux, hk, hlo, h]

theorem ones_needed_aux_skip (fuel n lo k : Nat) (hk : k ≤ 7)
    (hgt : size_dyn_int k < n) :
    ones_needed_aux n (fuel + 1) lo k = ones_needed_aux n fuel (size_dyn_int k) (k + 1) := by
  have h1 : ¬(lo ≤ n ∧ n ≤ size_dyn_int k) := by omega
  have h2 : ¬(7 < k) := by omega
  have h3 : k ≠ 8 := by omega
  simp [ones_needed_aux, h1, h2, h3]

theorem c1_roundtrip (n : Nat) (hn : n < 2 ^ 56) :
    (DynamicInt.encode n).bind DynamicInt.decode = some n := by
  have s0 : size_dyn_int 0 = 127 := rfl
  have s1 : size_dyn_int 1 = 16383 := rfl
  have s2 : size_dyn_int 2 = 2097151 := rfl
  have s3 : size_dyn_int 3 = 268435455 := rfl
  have s4 : size_dyn_int 4 = 34359738367 := rfl
  have s5 : size_dyn_int 5 = 4398046511103 := rfl
  have s6 : size_dyn_int 6 = 562949953421311 := rfl
  have s7 : size_dyn_int 7 = 72057594037927935 := rfl
  have hn7 : n ≤ size_dyn_int 7 := by rw [s7]; omega
  by_cases h0 : n ≤ size_dyn_int 0
  · exact decode_encode_at 0 n (by omega) (ones_needed_aux_hit 8 n 0 0 (by omega) (by omega) h0) h0
  by_cases h1 : n ≤ size_dyn_int 1
  · refine decode_encode_at 1 n (by omega) ?_ h1
    rw [ones_needed, ones_needed_aux_skip 8 n 0 0 (by omega) (by omega)]
    exact ones_needed_aux_hit 7 n _ 1 (by omega) (by omega) h1
  by_cases h2 : n ≤ size_dyn_int 2
  · refine decode_encode_at 2 n (by omega) ?_ h2
    rw [ones_needed, ones_needed_aux_skip 8 n 0 0 (by omega) (by omega),
      ones_needed_aux_skip 7 n _ 1 (by omega) (by omega)]
    exact ones_needed_aux_hit 6 n _ 2 (by omega) (by omega) h2
  by_cases h3 : n ≤ size_dyn_int 3
  · refine decode_encode_at 3 n (by omega) ?_ h3
    rw [ones_needed, ones_needed_aux_skip 8 n 0 0 (by omega) (by omega),
      ones_needed_aux_skip 7 n _ 1 (by omega) (by omega),
      ones_needed_aux_skip 6 n _ 2 (by omega) (by omega)]
    exact ones_needed_aux_hit 5 n _ 3 (by omega) (by omega) h3
  by_cases h4 : n ≤ size_dyn_int 4
  · refine decode_encode_at 4 n (by omega) ?_ h4
    rw [ones_needed, ones_needed_aux_skip 8 n 0 0 (by omega) (by omega),
      ones_needed_aux_skip 7 n _ 1 (by omega) (by omega),
      ones_needed_aux_skip 6 n _ 2 (by omega) (by omega),
      ones_needed_aux_skip 5 n _ 3 (by omega) (by omega)]
    exact ones_needed_aux_hit 4 n _ 4 (by omega) (by omega) h4
  by_cases h5 : n ≤ size_dyn_int 5
  · refine decode_encode_at 5 n (by omega) ?_ h5
    rw [ones_needed, ones_needed_aux_skip 8 n 0 0 (by omega) (by omega),
      ones_needed_aux_skip 7 n _ 1 (by omega) (by omega),
      ones_needed_aux_skip 6 n _ 2 (by omega) (by omega),
      ones_needed_aux_skip 5 n _ 3 (by omega) (by omega),
      ones_needed_aux_skip 4 n _ 4 (by omega) (by omega)]
    exact ones_needed_aux_hit 3 n _ 5 (by omega) (by omega) h5
  by_cases h6 : n ≤ size_dyn_int 6
  · refine decode_encode_at 6 n (by omega) ?_ h6
    rw [ones_needed, ones_needed_aux_skip 8 n 0 0 (by omega) (by omega),
      ones_needed_aux_skip 7 n _ 1 (by omega) (by omega),
      ones_needed_aux_skip 6 n _ 2 (by omega) (by omega),
      ones_needed_aux_skip 5 n _ 3 (by omega) (by omega),
      ones_needed_aux_skip 4 n _ 4 (by omega) (by omega),
      ones_needed_aux_skip 3 n _ 5 (by omega) (by omega)]
    exact ones_needed_aux_hit 2 n _ 6 (by omega) (by omega) h6
  · refine decode_encode_at 7 n (by omega) ?_ hn7
    rw [ones_needed, ones_needed_aux_skip 8 n 0 0 (by omega) (by omega),
      ones_needed_aux_skip 7 n _ 1 (by omega) (by omega),
      ones_needed_aux_skip 6 n _ 2 (by omega) (by omega),
      ones_needed_aux_skip 5 n _ 3 (by omega) (by omega),
      ones_needed_aux_skip 4 n _ 4 (by omega) (by omega),
      ones_needed_aux_skip 3 n _ 5 (by omega) (by omega),
      ones_needed_aux_skip 2 n _ 6 (by omega) (by omega)]
    exact ones_needed_aux_hit 1 n _ 7 (by omega) (by omega) hn7

/-- C1: for every `n ∈ [0, 2^56)`, `DynamicInt::decode(DynamicInt::encode(n))`
is `Some(n)`; and every byte sequence `b` produced by `encode` satisfies
`encode(decode(b).unwrap()) = b`. -/
theorem c1_dyn_int_round_trip (n : Nat) (hn : n < 2 ^ 56) :
    (DynamicInt.encode n).bind DynamicInt.decode = some n ∧
    ∀ b, DynamicInt.encode n = some b →
      (DynamicInt.decode b).bind DynamicInt.encode = some b := by
  have h := c1_roundtrip n hn
  refine ⟨h, fun b hb => ?_⟩
  rw [hb] at h
  have hdec : DynamicInt.decode b = some n := by simpa using h
  rw [hdec]
  simpa using hb

/-- Witness for C1 at `n = 271` (the spec's own decode example `0x010F`). -/
theorem c1_dyn_int_round_trip_witness :
    (DynamicInt.encode 271).bind DynamicInt.decode = some 271 ∧
    ∀ b, DynamicInt.encode 271 = some b →
      (DynamicInt.decode b).bind DynamicInt.encode = some b :=
  c1_dyn_int_round_trip 271 (by norm_num)

/-! ## C2 — the `U16*` instructions (opcodes 16..28) -/

/-- A VM whose stack holds exactly the two bytes `[2, 3]` (`sp = 2`). -/
def vm_two_bytes : VirtualMachine :=
  { program := ⟨[]⟩, ip := 0,
    stack := fun i => if i = 0 then 2 else if i = 1 then 3 else 0,
    stack_len := 4, sp := 2, exit := none, pool := ⟨[], []⟩ }

/-- C2 (evaluation at the failing input): `U16MulInst` (opcode 16) — like the
whole opcode 16..28 block, instantiated with `RustType = u8` in the source —
pops two single bytes and pushes one byte: on the 2-byte stack `[2, 3]` it
succeeds with `sp` going from 2 to 1 and the product byte 6 on top, whereas
popping two `u16` operands (4 bytes) as the claim states would underflow. -/
theorem c2_u16_ops_are_byte_sized :
    (instruction_set 16).map
        (fun exec => (exec vm_two_bytes).map (fun vm => (vm.sp, vm.stack 0))) =
      some (.ok (1, 6)) ∧
    vm_two_bytes.stack_pop_raw 4 = .error .UnderFlow :=
  ⟨rfl, rfl⟩

/-! ## C3 — the precedence table -/

/-- C3 (evaluation at the failing inputs): the precedence lookup panics
(`none`) for the unary operators (their table rows are commented out in the
source) and for `>=` (`CompGTE` is missing — the table lists `CompLTE` twice
instead), while every operator actually present gets the spec's
associativity and precedence. -/
theorem c3_precedence_table_gaps :
    operator_precedence (.Unary .Negation) = none ∧
    operator_precedence (.Unary .Not) = none ∧
    operator_precedence (.Binary .CompGTE) = none ∧
    operator_precedence (.Binary .Mul) = some (.LeftToRight, 7) ∧
    operator_precedence (.Binary .Div) = some (.LeftToRight, 7) ∧
    operator_precedence (.Binary .Rem) = some (.LeftToRight, 7) ∧
    operator_precedence (.Binary .Add) = some (.LeftToRight, 6) ∧
    operator_precedence (.Binary .Sub) = some (.LeftToRight, 6) ∧
    operator_precedence (.Binary .LShift) = some (.LeftToRight, 5) ∧
    operator_precedence (.Binary .RShift) = some (.LeftToRight, 5) ∧
    operator_precedence (.Binary .CompLT) = some (.LeftToRight, 4) ∧
    operator_precedence (.Binary .CompGT) = some (.LeftToRight, 4) ∧
    operator_precedence (.Binary .CompLTE) = some (.LeftToRight, 4) ∧
    operator_precedence (.Binary .CompEq) = some (.LeftToRight, 3) ∧
    operator_precedence (.Binary .CompNe) = some (.LeftToRight, 3) := by
  decide

/-! ## C4 — the S6 end-to-end VM run -/

/-- The S6 scenario from `main.rs`: chunk
`[Const, 0, Const, 1, U8Add, Exit] = [2, 0, 2, 1, 6, 1]` with constant pool
`{0 → [52], 1 → [49]}`. -/
def vm_s6 : VirtualMachine :=
  VirtualMachine.new ⟨[2, 0, 2, 1, 6, 1]⟩ ⟨[(0, 1), (1, 1)], [52, 49]⟩

/-- C4: the S6 run terminates without a runtime error and `run()` returns
`Ok(101)` — the byte `52 + 49` pushed by `U8Add` and popped by `Exit`. -/
theorem c4_vm_end_to_end : run 10 vm_s6 = some (.ok 101) :=
  rfl

/-! ## C5 — dyn-int short read -/

/-- A chunk whose single byte `0x81` announces one additional dyn-int byte
that is not there. -/
def vm_short_dyn_int : VirtualMachine :=
  VirtualMachine.new ⟨[0x81]⟩ ⟨[], []⟩

/-- C5 (counterexample): on the short read the VM fails with
`ProgramOverFlow`, not with the `DynInt` kind the claim names. -/
theorem c5_counterexample :
    vm_short_dyn_int.read_dyn_int = .error .ProgramOverFlow ∧
    RuntimeError.ProgramOverFlow ≠ RuntimeError.DynInt :=
  ⟨rfl, by decide⟩

/-- C5 (amended): whenever the chunk ends before the additional bytes
announced by the first byte's leading ones are available, `read_dyn_int`
fails with the `ProgramOverFlow` kind. -/
theorem c5_amended_short_read_is_program_overflow (vm : VirtualMachine)
    (first : Nat) (hfirst : vm.program.get vm.ip = some first)
    (hshort : vm.program.data.length < vm.ip + 1 + ones_before_zero first) :
    vm.read_dyn_int = .error .ProgramOverFlow := by
  rw [VirtualMachine.read_dyn_int, VirtualMachine.read_byte, hfirst]
  simp only
  rw [if_neg (by simpa using by omega : ¬(vm.ip + 1 + ones_before_zero first ≤ vm.program.data.length))]

/-- Witness for the amended C5 at the concrete one-byte chunk `[0x81]`. -/
theorem c5_amended_witness : vm_short_dyn_int.read_dyn_int = .error .ProgramOverFlow :=
  c5_amended_short_read_is_program_overflow vm_short_dyn_int 0x81 rfl (by decide)

/-! ## C6 — left associativity of `a - b - c` -/

/-- The token stream for `a - b - c`: three integer literals separated by two
`-` puncts (one-byte tokens at positions 0, 2, 4, 6, 8), then end of file. -/
def toks_a_minus_b_minus_c (a b c : Nat) : List Token :=
  [⟨.Int a, ⟨0, 1⟩⟩, ⟨.Punct .Minus, ⟨2, 3⟩⟩, ⟨.Int b, ⟨4, 5⟩⟩,
   ⟨.Punct .Minus, ⟨6, 7⟩⟩, ⟨.Int c, ⟨8, 9⟩⟩, ⟨.EOF, ⟨9, 9⟩⟩]

/-- C6: `a - b - c` parses to `BinaryExpr{BinaryExpr{a, -, b}, -, c}` — the
fold nests to the left (with spans `lhs.lo..rhs.hi`). -/
theorem c6_sub_left_assoc (a b c : Nat) :
    Expression.parse 20 (Parser.new (toks_a_minus_b_minus_c a b c)) =
      some (.Ok (.mk (.BinaryExpr
          (.mk (.BinaryExpr (.mk (.IntLiteral a) ⟨0, 1⟩) .Sub
            (.mk (.IntLiteral b) ⟨4, 5⟩)) ⟨0, 5⟩)
          .Sub (.mk (.IntLiteral c) ⟨8, 9⟩)) ⟨0, 9⟩),
        { toks := [⟨.EOF, ⟨9, 9⟩⟩], current_precedence := 0, indent := [0],
          diags := [] }) :=
  rfl

/-! ## C9 — multi-line caret data -/

/-- A four-line source, five bytes per line. -/
def dcx_four_lines : DiagCtxt :=
  ⟨["aaaaa".toList, "bbbbb".toList, "ccccc".toList, "ddddd".toList]⟩

/-- A primary span from line 1 column 2 to line 4 column 3: it fully encloses
lines 2 and 3. -/
def prim_1_2_to_4_3 : FullLinePos :=
  ⟨⟨1, 2⟩, ⟨4, 3⟩⟩

/-- C9 (evaluation at the failing input): for a span enclosing two full lines
(`end.line - start.line = 3 ≠ 2`), the caret data marks the start line from
its start column to end-of-line and the end line up to the end column, but
contains no entry at all for the enclosed lines 2 and 3 — the
`in-between` marking only runs when `end.line - start.line == 2`. -/
theorem c9_enclosed_lines_unmarked :
    build_lines_data dcx_four_lines [prim_1_2_to_4_3] LinesData.new =
      some ⟨[(1, [(2, 6), (2, 3)]), (4, [(1, 4)])]⟩ ∧
    LinesData.contains_line ⟨[(1, [(2, 6), (2, 3)]), (4, [(1, 4)])]⟩ 2 = false ∧
    LinesData.contains_line ⟨[(1, [(2, 6), (2, 3)]), (4, [(1, 4)])]⟩ 3 = false ∧
    prim_1_2_to_4_3.start.line < 2 ∧ 2 < prim_1_2_to_4_3.stop.line ∧
    prim_1_2_to_4_3.start.line < 3 ∧ 3 < prim_1_2_to_4_3.stop.line := by
  refine ⟨rfl, rfl, rfl, ?_, ?_, ?_, ?_⟩ <;> decide

/-! ## C10 — the run loop leaves `exit` set -/

/-- Whenever the fetch loop stops without an error, `exit` is `Some`: either
still from before the iteration, set by an instruction, or set to `Some(0)`
by `finished()`. -/
theorem run_loop_exit_isSome (fuel : Nat) :
    ∀ vm vmE, run_loop fuel vm = some (.ok vmE) → vmE.exit.isSome := by
  induction fuel with
  | zero => intro vm vmE h; simp [run_loop] at h
  | succ fuel ih =>
    intro vm vmE h
    rw [run_loop] at h
    split at h
    next hex => cases h; exact hex
    next hex =>
      split at h
      next vm₁ heq =>
        cases h
        rw [VirtualMachine.finished] at heq
        split at heq
        next => cases heq; rfl
        next => simp at heq
      next vm₁ heq =>
        split at h
        next => simp at h
        next inst vm₂ hrb =>
          split at h
          next => simp at h
          next exec hset =>
            split at h
            next => simp at h
            next vm₃ hexec => exact ih _ _ h

/-- C10: if the fetch loop exits without an error, `exit` is `Some`, so the
final `exit.unwrap()` cannot panic and `run` returns `Ok` of that code. -/
theorem c10_run_exit_some (fuel : Nat) (vm vmE : VirtualMachine)
    (h : run_loop fuel vm = some (.ok vmE)) :
    ∃ code, vmE.exit = some code ∧ run fuel vm = some (.ok code) := by
  have hsome := run_loop_exit_isSome fuel vm vmE h
  cases hcode : vmE.exit with
  | none => rw [hcode] at hsome; simp at hsome
  | some code =>
    refine ⟨code, rfl, ?_⟩
    rw [run, h]
    show (match vmE.exit with
      | some c => some (Except.ok c)
      | none => none) = some (.ok code)
    rw [hcode]

/-- An empty program: `finished()` fires at once and sets `exit = Some(0)`. -/
def vm_empty : VirtualMachine :=
  VirtualMachine.new ⟨[]⟩ ⟨[], []⟩

/-- Witness for C10 on the empty program. -/
theorem c10_run_exit_some_witness :
    ∃ code, ({ vm_empty with exit := some 0 } : VirtualMachine).exit = some code ∧
      run 1 vm_empty = some (.ok code) :=
  c10_run_exit_some 1 vm_empty { vm_empty with exit := some 0 } rfl

/-! ## C7 and C8 — lexer EOF and word classification -/

/-- At end of input `lex` returns the `EndOfFile` token with span
`[length - 1, length)` measured in characters, bumping only the pop counter:
the state stays at end of input. -/
theorem lex_at_eof (fuel : Nat) (lx : Lexer)
    (hiter : lx.file.filetext.length ≤ lx.file.iter_idx)
    (hlen : 1 ≤ lx.file.filetext.length) (hfuel : 1 ≤ fuel) :
    lex fuel lx = some (.Ok ⟨.EOF,
        ⟨lx.file.filetext.length - 1, lx.file.filetext.length⟩⟩,
      { lx with prev_idx := lx.idx, idx := lx.idx + 1 }) := by
  obtain ⟨k, rfl⟩ : ∃ k, fuel = k + 1 := ⟨fuel - 1, by omega⟩
  have hget : lx.file.filetext.get? lx.file.iter_idx = none :=
    List.get?_eq_none.mpr hiter
  have hgetE : lx.file.filetext[lx.file.iter_idx]? = none := by
    simpa [← List.get?_eq_getElem?] using hget
  obtain ⟨m, hm⟩ : ∃ m, lx.file.filetext.length = m + 1 :=
    ⟨lx.file.filetext.length - 1, by omega⟩
  have hws : skip_useless_whitespace (k + 1) lx = some lx := by
    simp [skip_useless_whitespace, Lexer.peek, LexrFile.peek, hget, hgetE]
  have hcm : skip_comments (k + 1) lx = some lx := by
    simp [skip_comments, Lexer.peek, LexrFile.peek, hget, hgetE]
  rw [lex, hws]
  simp only
  rw [hcm]
  simp only [Lexer.pop, LexrFile.pop, hget, hgetE, LexrFile.length, hm, Span.new,
    Nat.add_sub_cancel]

/-- C7 (amended): at end of input `lex` returns an `EndOfFile` token whose
span is `[n-1, n)` where `n` is the CHARACTER count of the source (this equals
the last byte position only when the trailing characters are one UTF-8 byte
each), and every subsequent `lex` call returns `EndOfFile` with the same
span. -/
theorem c7_amended (fuel fuel₂ : Nat) (lx : Lexer)
    (hiter : lx.file.filetext.length ≤ lx.file.iter_idx)
    (hlen : 1 ≤ lx.file.filetext.length)
    (hfuel : 1 ≤ fuel) (hfuel₂ : 1 ≤ fuel₂) :
    ∃ lx₁ lx₂,
      lex fuel lx = some (.Ok ⟨.EOF,
          ⟨lx.file.filetext.length - 1, lx.file.filetext.length⟩⟩, lx₁) ∧
      lex fuel₂ lx₁ = some (.Ok ⟨.EOF,
          ⟨lx.file.filetext.length - 1, lx.file.filetext.length⟩⟩, lx₂) := by
  have h1 := lex_at_eof fuel lx hiter hlen hfuel
  have h2 := lex_at_eof fuel₂ { lx with prev_idx := lx.idx, idx := lx.idx + 1 }
    hiter hlen hfuel₂
  exact ⟨_, _, h1, h2⟩

def c7_text : List Char := ['"', 'é', '"']

/-- C7 (counterexample): on the source `"é"` (three characters, four bytes)
the token after the string literal is `EndOfFile` with span `[2, 3)` — not a
span at the last byte position 3. -/
theorem c7_counterexample :
    lex 10 (Lexer.new c7_text) =
      some (.Ok ⟨.Str "é", ⟨0, 3⟩⟩, ⟨⟨c7_text, 3, 3⟩, 0, 3⟩) ∧
    lex 10 (⟨⟨c7_text, 3, 3⟩, 0, 3⟩ : Lexer) =
      some (.Ok ⟨.EOF, ⟨2, 3⟩⟩, ⟨⟨c7_text, 3, 3⟩, 3, 4⟩) ∧
    utf8_len c7_text = 4 ∧
    (⟨2, 3⟩ : Span) ≠ ⟨utf8_len c7_text - 1, utf8_len c7_text⟩ := by
  refine ⟨rfl, rfl, rfl, by decide⟩

/-- Witness for the amended C7 on the exhausted lexer of `"é"`. -/
theorem c7_amended_witness :
    ∃ lx₁ lx₂,
      lex 10 (⟨⟨c7_text, 3, 3⟩, 0, 3⟩ : Lexer) =
        some (.Ok ⟨.EOF, ⟨c7_text.length - 1, c7_text.length⟩⟩, lx₁) ∧
      lex 10 lx₁ = some (.Ok ⟨.EOF, ⟨c7_text.length - 1, c7_text.length⟩⟩, lx₂) :=
  c7_amended 10 10 _ (by decide) (by decide) (by norm_num) (by norm_num)

/-- The `numeric` flag after the `make_word` collection loop: the initial flag
stays set exactly while no collected character is a letter. -/
theorem make_word_aux_spec (fuel : Nat) :
    ∀ (lx : Lexer) (word : List Char) (numeric : Bool) w n lx₁,
      make_word_aux fuel lx word numeric = some (w, n, lx₁) →
      ∃ rest, w = word ++ rest ∧
        n = (numeric && rest.all (fun ch => !(ch.isUpper || ch.isLower))) := by
  induction fuel with
  | zero => intro lx word numeric w n lx₁ h; simp [make_word_aux] at h
  | succ fuel ih =>
    intro lx word numeric w n lx₁ h
    rw [make_word_aux] at h
    split at h
    next c hpeek =>
      split at h
      next halpha =>
        obtain ⟨rest, hrest, hn⟩ := ih _ _ _ _ _ _ h
        refine ⟨c :: rest, by simpa using hrest, ?_⟩
        rw [hn, List.all_cons, halpha]
        simp
      next halpha =>
        split at h
        next hdig =>
          obtain ⟨rest, hrest, hn⟩ := ih _ _ _ _ _ _ h
          refine ⟨c :: rest, by simpa using hrest, ?_⟩
          simp only [Bool.or_eq_true, not_or, Bool.not_eq_true] at halpha
          rw [hn]
          simp [List.all_cons, halpha.1, halpha.2]
        next hdig =>
          simp only [Option.some.injEq, Prod.mk.injEq] at h
          exact ⟨[], by simp [h.1.symm], by simp [h.2.1.symm]⟩
    next hpeek =>
      simp only [Option.some.injEq, Prod.mk.injEq] at h
      exact ⟨[], by simp [h.1.symm], by simp [h.2.1.symm]⟩

/-- An ASCII digit is neither an upper- nor a lower-case letter. -/
theorem digit_not_alpha (c : Char) (h : c.isDigit = true) :
    (c.isUpper || c.isLower) = false := by
  simp only [Char.isDigit, Char.isUpper, Char.isLower, Bool.and_eq_true,
    decide_eq_true_eq] at h
  obtain ⟨h1, h2⟩ := h
  simp only [Bool.or_eq_false_iff]
  constructor
  · simp only [Char.isUpper, Bool.and_eq_false_iff, decide_eq_false_iff_not]
    left
    intro h65
    exact absurd (UInt32.le_trans h65 h2) (by decide)
  · simp only [Char.isLower, Bool.and_eq_false_iff, decide_eq_false_iff_not]
    left
    intro h97
    exact absurd (UInt32.le_trans h97 h2) (by decide)

/-- `lex_keyword` produces a keyword or identifier token, never an integer. -/
theorem lex_keyword_ne_int (w : List Char) (v : Nat) : lex_keyword w ≠ .Int v := by
  rw [lex_keyword]
  split <;> simp

/-- C8 (amended): a maximal word collected by the lexer is lexed as an
integer literal (an `Int` token, or an integer-literal diagnostic such as
overflow) iff its FIRST character is a digit and it contains no letters;
otherwise it becomes a keyword when it exactly matches the keyword set
(`Keyword::from_str`), else an identifier.  A word such as `_1` contains no
letters but starts with an underscore, so it takes the
keyword-or-identifier path. -/
theorem c8_amended (fuel : Nat) (lx : Lexer) (c : Char)
    (_hc : (c.isUpper || c.isLower || c = '_' || c.isDigit) = true)
    (w : List Char) (n : Bool) (lx₁ : Lexer)
    (hw : make_word fuel lx c = some (w, n, lx₁)) :
    w.head? = some c ∧
    (((∃ v loc, lex_word fuel lx c = some (.Ok ⟨.Int v, loc⟩, lx₁)) ∨
      (∃ d, lex_word fuel lx c = some (.Err d, lx₁))) ↔
     (c.isDigit = true ∧ w.all (fun ch => !(ch.isUpper || ch.isLower)) = true)) ∧
    (¬(c.isDigit = true ∧ w.all (fun ch => !(ch.isUpper || ch.isLower)) = true) →
      lex_word fuel lx c = some (.Ok ⟨(match Keyword.from_str (String.mk w) with
          | some kw => TokenType.KW kw
          | none => TokenType.Ident (String.mk w)), lx₁.current_span⟩, lx₁)) := by
  obtain ⟨rest, hrest, hn⟩ := make_word_aux_spec fuel lx [c] (rust_is_numeric c) w n lx₁ hw
  have hcons : w = c :: rest := by simpa using hrest
  subst hcons
  have hlw : lex_word fuel lx c =
      (if n then some (lex_int lx₁ (c :: rest), lx₁)
       else some (.Ok ⟨lex_keyword (c :: rest), lx₁.current_span⟩, lx₁)) := by
    rw [lex_word, hw]
  have hn_digits : n = true →
      c.isDigit = true ∧ rest.all (fun ch => !(ch.isUpper || ch.isLower)) = true := by
    intro hnval
    rw [hnval] at hn
    rw [rust_is_numeric] at hn
    have := hn.symm
    rw [Bool.and_eq_true] at this
    exact this
  refine ⟨rfl, ?_, ?_⟩
  constructor
  · rintro (⟨v, loc, hv⟩ | ⟨d, hd⟩)
    · -- an Int token can only come from the numeric branch
      cases hnval : n with
      | false =>
        rw [hnval, if_neg (by simp)] at hlw
        rw [hlw] at hv
        simp only [Option.some.injEq, Prod.mk.injEq, Fuzzy.Ok.injEq, Token.mk.injEq] at hv
        exact absurd hv.1.1 (lex_keyword_ne_int _ v)
      | true =>
        have hdig := hn_digits hnval
        refine ⟨hdig.1, ?_⟩
        simp only [List.all_cons, Bool.and_eq_true]
        exact ⟨by simp [digit_not_alpha c hdig.1], hdig.2⟩
    · cases hnval : n with
      | false =>
        rw [hnval, if_neg (by simp)] at hlw
        rw [hlw] at hd
        simp at hd
      | true =>
        have hdig := hn_digits hnval
        refine ⟨hdig.1, ?_⟩
        simp only [List.all_cons, Bool.and_eq_true]
        exact ⟨by simp [digit_not_alpha c hdig.1], hdig.2⟩
  · rintro ⟨hdig, hall⟩
    have hrall : rest.all (fun ch => !(ch.isUpper || ch.isLower)) = true := by
      simp only [List.all_cons, Bool.and_eq_true] at hall
      exact hall.2
    have hntrue : n = true := by
      rw [hn, rust_is_numeric, hdig, hrall]
      rfl
    rw [hntrue, if_pos rfl] at hlw
    rw [lex_int] at hlw
    cases hmi : make_int lx₁ (c :: rest) 10 with
    | ok lit =>
      rw [hmi] at hlw
      exact .inl ⟨lit, lx₁.current_span, hlw⟩
    | error d =>
      rw [hmi] at hlw
      exact .inr ⟨d, hlw⟩
  · -- the non-integer outcome: keyword on an exact match, else identifier
    intro hnot
    have hnfalse : n = false := by
      cases hnval : n with
      | false => rfl
      | true =>
        exfalso
        apply hnot
        have hdig := hn_digits hnval
        refine ⟨hdig.1, ?_⟩
        simp only [List.all_cons, Bool.and_eq_true]
        exact ⟨by simp [digit_not_alpha c hdig.1], hdig.2⟩
    rw [hlw, hnfalse, if_neg (by simp)]
    rw [lex_keyword]

/-- C8 (counterexample): the word `_1` contains no letters, yet it is lexed
as the identifier `_1`, not as an integer literal. -/
theorem c8_counterexample :
    lex 10 (Lexer.new ['_', '1']) =
      some (.Ok ⟨.Ident "_1", ⟨0, 2⟩⟩, ⟨⟨['_', '1'], 2, 1⟩, 0, 2⟩) ∧
    (['_', '1'].all (fun ch => !(ch.isUpper || ch.isLower))) = true :=
  ⟨rfl, rfl⟩

/-- Witness for the amended C8 on the word `_1`: not an integer literal, and
the otherwise-branch yields the identifier `_1`. -/
theorem c8_amended_witness :
    (['_', '1'].head? = some '_') ∧
    (((∃ v loc, lex_word 10 (⟨⟨['_', '1'], 1, 0⟩, 0, 1⟩ : Lexer) '_' =
          some (.Ok ⟨.Int v, loc⟩, (⟨⟨['_', '1'], 2, 1⟩, 0, 2⟩ : Lexer))) ∨
      (∃ d, lex_word 10 (⟨⟨['_', '1'], 1, 0⟩, 0, 1⟩ : Lexer) '_' =
          some (.Err d, (⟨⟨['_', '1'], 2, 1⟩, 0, 2⟩ : Lexer)))) ↔
     ('_'.isDigit = true ∧
      (['_', '1'].all (fun ch => !(ch.isUpper || ch.isLower))) = true)) ∧
    (¬('_'.isDigit = true ∧
        (['_', '1'].all (fun ch => !(ch.isUpper || ch.isLower))) = true) →
      lex_word 10 (⟨⟨['_', '1'], 1, 0⟩, 0, 1⟩ : Lexer) '_' =
        some (.Ok ⟨(match Keyword.from_str (String.mk ['_', '1']) with
            | some kw => TokenType.KW kw
            | none => TokenType.Ident (String.mk ['_', '1'])),
          (⟨⟨['_', '1'], 2, 1⟩, 0, 2⟩ : Lexer).current_span⟩,
          (⟨⟨['_', '1'], 2, 1⟩, 0, 2⟩ : Lexer))) :=
  c8_amended 10 ⟨⟨['_', '1'], 1, 0⟩, 0, 1⟩ '_' (by decide) ['_', '1'] false
    ⟨⟨['_', '1'], 2, 1⟩, 0, 2⟩ rfl

/-- Witness for C6 at the literals `1 - 2 - 3`. -/
theorem c6_sub_left_assoc_witness :
    Expression.parse 20 (Parser.new (toks_a_minus_b_minus_c 1 2 3)) =
      some (.Ok (.mk (.BinaryExpr
          (.mk (.BinaryExpr (.mk (.IntLiteral 1) ⟨0, 1⟩) .Sub
            (.mk (.IntLiteral 2) ⟨4, 5⟩)) ⟨0, 5⟩)
          .Sub (.mk (.IntLiteral 3) ⟨8, 9⟩)) ⟨0, 9⟩),
        { toks := [⟨.EOF, ⟨9, 9⟩⟩], current_precedence := 0, indent := [0],
          diags := [] }) :=
  c6_sub_left_assoc 1 2 3
